import Mathlib

/-!
# Verification of the ICOLD georeferencing core

A shallow embedding, in Lean 4, of the string-similarity engine and the
QA-ranking scan of the georeferencing-ICOLD-dams-and-reservoirs repository
(`Georeferencing_functions.py`, `Geocoding_QA.py`), together with theorems
settling the specification claims about them.

Modelling conventions:
* Python strings are modelled as `List Char`; string functions (`lower`,
  `strip`, `split`, `replace`, `find`, numeric parsing) are modelled for the
  character repertoire the data uses (ASCII plus the Latin accented letters
  handled by `remove_accents`).
* Python floats are modelled as exact rationals (`ℚ`); the similarity ratio
  `2*M/T` of small integers is exact in both worlds.
* Fallible code paths (Python exceptions: `max()` of an empty sequence,
  use of a local variable that was never assigned) are modelled with
  `Option`: `none` means the Python original raises.
-/

namespace GeoDAR

/-! ## Python string primitives -/

/-- Python `str.lower()` (character-wise, ASCII-faithful). -/
def pyLower (s : List Char) : List Char := s.map Char.toLower

/-- Python `str.strip()`: remove leading and trailing whitespace. -/
def pyStrip (s : List Char) : List Char :=
  ((s.dropWhile Char.isWhitespace).reverse.dropWhile Char.isWhitespace).reverse

/-- Python `s.split(sep)` for a one-character separator, keeping empty parts. -/
def splitChar (sep : Char) (s : List Char) : List (List Char) :=
  s.foldr
    (fun c acc =>
      if c = sep then [] :: acc
      else
        match acc with
        | g :: gs => (c :: g) :: gs
        | [] => [[c]])
    [[]]

/-- Python `s.split()` with no argument: split on whitespace runs, dropping
empty parts. -/
def pySplitWS (s : List Char) : List (List Char) :=
  (s.foldr
    (fun c acc =>
      if c.isWhitespace then [] :: acc
      else
        match acc with
        | g :: gs => (c :: g) :: gs
        | [] => [[c]])
    [[]]).filter (· ≠ [])

/-- Python `p in s` for strings: `p` occurs contiguously in `s`. -/
def occursIn (p : List Char) : List Char → Bool
  | [] => p.isPrefixOf ([] : List Char)
  | c :: t => p.isPrefixOf (c :: t) || occursIn p t

/-- Python `s.find(p)` restricted to the guarded uses in the source: returns
the first index at which `p` occurs in `s`; returns `s.length + 1` when `p`
does not occur (the source only calls `find` after establishing `p in s`). -/
def pyFind (p : List Char) : List Char → Nat
  | [] => if p.isPrefixOf ([] : List Char) then 0 else 1
  | c :: t => if p.isPrefixOf (c :: t) then 0 else pyFind p t + 1

/-- Python `s.replace(p, r)` (left-to-right, non-overlapping), via fuel;
`s.length` fuel suffices because each step consumes at least one character
(the patterns used by the source are nonempty). -/
def pyReplaceAux (p r : List Char) : Nat → List Char → List Char
  | 0, s => s
  | _ + 1, [] => []
  | fuel + 1, c :: t =>
    if p.isPrefixOf (c :: t) ∧ p ≠ [] then r ++ pyReplaceAux p r fuel ((c :: t).drop p.length)
    else c :: pyReplaceAux p r fuel t

/-- Python `s.replace(p, r)`. -/
def pyReplace (p r s : List Char) : List Char := pyReplaceAux p r s.length s

/-- Python `re.findall(r'\d+', s)`: the maximal runs of digit characters of
`s`, in order. -/
def digitRuns (s : List Char) : List (List Char) :=
  let r := s.foldr
    (fun c (acc : List (List Char) × List Char) =>
      if c.isDigit then (acc.1, c :: acc.2)
      else if acc.2 = [] then acc
      else (acc.2 :: acc.1, []))
    ([], [])
  if r.2 = [] then r.1 else r.2 :: r.1

/-- Python `str.isdigit()` (ASCII model): nonempty and all digit characters. -/
def pyIsdigit (s : List Char) : Bool := !s.isEmpty && s.all Char.isDigit

/-- Python `int(s)` for a digit string. -/
def digitsToNat (s : List Char) : Nat := s.foldl (fun n c => 10 * n + (c.toNat - '0'.toNat)) 0

/-- One character of `remove_accents` (`unicodedata.normalize('NFKD', ...)`
followed by dropping combining marks): maps the Latin accented letters to
their base letter and is the identity elsewhere (ASCII-faithful model). -/
def stripAccentChar (c : Char) : Char :=
  if c ∈ ['á', 'à', 'â', 'ä', 'ã', 'å'] then 'a'
  else if c ∈ ['é', 'è', 'ê', 'ë'] then 'e'
  else if c ∈ ['í', 'ì', 'î', 'ï'] then 'i'
  else if c ∈ ['ó', 'ò', 'ô', 'ö', 'õ'] then 'o'
  else if c ∈ ['ú', 'ù', 'û', 'ü'] then 'u'
  else if c = 'ç' then 'c'
  else if c = 'ñ' then 'n'
  else if c = 'ý' then 'y'
  else c

/-- `remove_accents(input_str)` from `Georeferencing_functions.py`. -/
def remove_accents (s : List Char) : List Char := s.map stripAccentChar

/-! ## The `difflib.SequenceMatcher` ratio

`SequenceMatcher(None, a, b).ratio()` computes `2*M/T` where `T` is the total
length and `M` the total size of the matching blocks found by the
Ratcliff/Obershelp procedure: recursively take the longest matching block
(ties: earliest in `a`, then earliest in `b`) and recurse on the pieces to
its left and to its right.  (For the short strings this repository compares,
`difflib`'s `autojunk` heuristic, which only affects sequences longer than
199 characters, never fires.) -/

/-- Length of the longest common prefix. -/
def lcpLen : List Char → List Char → Nat
  | a :: as, b :: bs => if a = b then lcpLen as bs + 1 else 0
  | _, _ => 0

/-- Keep the better of two candidate blocks `(i, j, size)`: strictly larger
size wins, so the scan order (ascending `i`, then ascending `j`) makes the
earliest maximal block the result, as in `find_longest_match`. -/
def betterCand (best cand : Nat × Nat × Nat) : Nat × Nat × Nat :=
  if best.2.2 < cand.2.2 then cand else best

/-- The longest matching block `(i, j, size)` of `a` and `b`
(`find_longest_match` over the whole strings, no junk). -/
def bestMatch (a b : List Char) : Nat × Nat × Nat :=
  (List.range a.length).foldl
    (fun best i =>
      (List.range b.length).foldl
        (fun best j => betterCand best (i, j, lcpLen (a.drop i) (b.drop j)))
        best)
    (0, 0, 0)

/-- Total matched size (sum of `get_matching_blocks` sizes), by fuel;
`a.length + b.length` fuel suffices since each recursion step removes a
nonempty block. -/
def matchTotalAux : Nat → List Char → List Char → Nat
  | 0, _, _ => 0
  | fuel + 1, a, b =>
    let m := bestMatch a b
    if m.2.2 = 0 then 0
    else
      matchTotalAux fuel (a.take m.1) (b.take m.2.1) + m.2.2 +
        matchTotalAux fuel (a.drop (m.1 + m.2.2)) (b.drop (m.2.1 + m.2.2))

/-- Total matched size `M` of the Ratcliff/Obershelp matching. -/
def matchTotal (a b : List Char) : Nat := matchTotalAux (a.length + b.length) a b

/-- `SequenceMatcher(None, a, b).ratio()` as an exact rational:
`2*M/T`, and `1` when both strings are empty (`difflib._calculate_ratio`). -/
def ratioQ (a b : List Char) : ℚ :=
  if a.length + b.length = 0 then 1
  else (2 * matchTotal a b : ℚ) / (a.length + b.length)

/-! ## `similar` -/

/-- The literal placeholder values rejected by `similar` (`'-999'`, `''`,
`'/'`, `'-'`, `'..'`, `'_'`; the `None` comparisons of the source cannot
arise for string inputs). -/
def sentinelList : List (List Char) :=
  ["-999".toList, "".toList, "/".toList, "-".toList, "..".toList, "_".toList]

/-- Membership in `sentinelList`. -/
def badToken (s : List Char) : Bool := sentinelList.contains s

/-- First seven characters are `unknown`, `unnamed` or `un-name`. -/
def unknownStart (s : List Char) : Bool :=
  decide (7 ≤ s.length) &&
    ["unknown".toList, "unnamed".toList, "un-name".toList].contains (s.take 7)

/-- The sub-token lists built in `similar`'s slash branch: split on `'/'`,
then on `'\'`, keep the nonempty parts, then strip each (in this order, as
in the source, so a blank part can survive as an empty token). -/
def slashParts (s : List Char) : List (List Char) :=
  (((splitChar '/' s).flatMap (splitChar '\\')).filter (· ≠ [])).map pyStrip

/-- Python `max` of a list: `none` models the `ValueError` on an empty list. -/
def pyMax : List ℚ → Option ℚ
  | [] => none
  | x :: xs => some (xs.foldl max x)

/-- `similar(a, b)` from `Georeferencing_functions.py`.  `none` models the
`ValueError` raised by `max([])` when the slash branch produces no sub-token
on one side. -/
def similar (a b : List Char) : Option ℚ :=
  let a := pyStrip (pyLower a)
  let b := pyStrip (pyLower b)
  if badToken a || badToken b then some 0
  else if unknownStart a || unknownStart b then some 0
  else if a.contains '\\' || b.contains '\\' || a.contains '/' || b.contains '/' then
    pyMax ((slashParts a).flatMap (fun x => (slashParts b).map (fun y => ratioQ x y)))
  else some (ratioQ a b)

/-- `year_similar(ICOLD_year, registry_year)` from
`Georeferencing_functions.py`. -/
def year_similar (y1 y2 : List Char) : Nat :=
  if pyIsdigit y1 = false ∨ pyIsdigit y2 = false then 0
  else if ((digitsToNat y1 : ℤ) - digitsToNat y2).natAbs ≤ 1 then 1
  else 0

/-- `similar_v2(a, b)` from `Georeferencing_functions.py`: the bare
`SequenceMatcher` ratio with no normalization and no short-circuit rules. -/
def similar_v2 (a b : List Char) : ℚ := ratioQ a b

/-! ## `damname_similar` -/

/-- The ancillary-title list of `damname_similar` (the source repeats it three
times "for a thorough removal"). -/
def v1TitlesBase : List (List Char) :=
  [" lake ", " dam ", " reservoir ", " barrage ", " lago ", " shuiku ", " lac ", " presa ",
    " embalse ", " barragem ", " agua ", " stuwal ", " weir ", " dike ", " dyke ", " levee ",
    " structure ", " canal ", " tank "].map String.toList

/-- `to_be_removed` of `damname_similar`. -/
def v1Titles : List (List Char) := v1TitlesBase ++ v1TitlesBase ++ v1TitlesBase

/-- Pad with spaces, remove the ancillary titles, strip; then the
China-specific `shuiku` suffix stripper (`len > 8` and the final six
characters are `shuiku`). -/
def processNameWith (titles : List (List Char)) (iso nm : List Char) : List Char :=
  let s := pyStrip (titles.foldl
    (fun s tt => if occursIn tt s then pyReplace tt [' '] s else s)
    ([' '] ++ remove_accents nm ++ [' ']))
  if iso = "cn".toList ∧ 8 < s.length ∧ s.drop (s.length - 6) = "shuiku".toList then
    pyStrip (pyLower (s.take (s.length - 6)))
  else s

/-- The delimiter cascade of `damname_similar`: whitespace, comma, period,
hyphen, slash, parentheses; empty fragments dropped. -/
def tokenizeV1 (s : List Char) : List (List Char) :=
  ((((((pySplitWS s).flatMap (splitChar ',')).flatMap (splitChar '.')).flatMap
    (splitChar '-')).flatMap (splitChar '/')).flatMap (splitChar '(')).flatMap
    (splitChar ')') |>.filter (· ≠ [])

/-- The Roman-numeral / spelled-number / Arabic-numeral correspondence table
for 1..20 used by the numeral gate. -/
def numeralWords : List (List Char × List Char × List Char) :=
  [("i", "one", "1"), ("ii", "two", "2"), ("iii", "three", "3"), ("iv", "four", "4"),
    ("v", "five", "5"), ("vi", "six", "6"), ("vii", "seven", "7"), ("viii", "eight", "8"),
    ("ix", "nine", "9"), ("x", "ten", "10"), ("xi", "eleven", "11"), ("xii", "twelve", "12"),
    ("xiii", "thirteen", "13"), ("xiv", "fourteen", "14"), ("xv", "fifteen", "15"),
    ("xvi", "sixteen", "16"), ("xvii", "seventeen", "17"), ("xviii", "eighteen", "18"),
    ("xix", "nineteen", "19"), ("xx", "twenty", "20")].map
    (fun w => (w.1.toList, w.2.1.toList, w.2.2.toList))

/-- Both sides have Arabic numerals: every numeral of either side must occur
on the other. -/
def gateBothNums (nl nr : List (List Char)) : Bool :=
  nl.all (nr.contains ·) && nr.all (nl.contains ·)

/-- Neither side has Arabic numerals: disqualify when a Roman or spelled
numeral token occurs on exactly one side. -/
def romanAsym (tl tr : List (List Char)) : Bool :=
  numeralWords.any fun w =>
    ((tl.contains w.1 || tl.contains w.2.1) && !(tr.contains w.1) && !(tr.contains w.2.1)) ||
      ((tr.contains w.1 || tr.contains w.2.1) && !(tl.contains w.1) && !(tl.contains w.2.1))

/-- One side has exactly one Arabic numeral: pass only when the other side
has the corresponding Roman or spelled token. -/
def romanToArabic (tNoNum tWithNum : List (List Char)) : Bool :=
  numeralWords.any fun w =>
    (tNoNum.contains w.1 || tNoNum.contains w.2.1) && tWithNum.contains w.2.2

/-- The numeral-consistency gate (`continue_or_not` before the directional
check): `true` means the comparison may continue. -/
def numGate (nl nr tl tr : List (List Char)) : Bool :=
  if nl ≠ [] ∧ nr ≠ [] then gateBothNums nl nr
  else if nl = [] ∧ nr = [] then !romanAsym tl tr
  else if nl = [] ∧ nr.length = 1 then romanToArabic tl tr
  else if nl.length = 1 ∧ nr = [] then romanToArabic tr tl
  else false

/-- The directional / letter-suffix token set. -/
def directionalTokens : List (List Char) :=
  ["east", "west", "north", "south", "upper", "lower", "a", "b", "c", "d",
    "auxiliar", "auxiliary"].map String.toList

/-- `true` when some directional token occurs on exactly one side
(disqualify). -/
def dirGate (tl tr : List (List Char)) : Bool :=
  directionalTokens.any fun w => tl.contains w != tr.contains w

/-- `continue_or_not` of `damname_similar`: the numeral gate followed by the
directional gate. -/
def continueOrNot (d g : List Char) : Bool :=
  numGate (digitRuns d) (digitRuns g) (tokenizeV1 d) (tokenizeV1 g) &&
    !dirGate (tokenizeV1 d) (tokenizeV1 g)

/-- Boundary test of the containment check, for `d` a proper infix of `g`:
accepted when `d` is a prefix of `g` followed by a space or hyphen, or a
suffix of `g` preceded by a space or hyphen. -/
def sideContained (d g : List Char) : Bool :=
  let f := pyFind d g
  if f = 0 then g.getD (f + d.length) '?' = ' ' || g.getD (f + d.length) '?' = '-'
  else if f + d.length = g.length then g.getD (f - 1) '?' = ' ' || g.getD (f - 1) '?' = '-'
  else false

/-- The containment check of `damname_similar` (both directions). -/
def containsAsUnit (d g : List Char) : Bool :=
  if occursIn d g ∧ d ≠ g then sideContained d g
  else if occursIn g d ∧ d ≠ g then sideContained g d
  else false

/-- The token stoplist of `damname_similar`'s token-level fallback (words
compared against both sides; the `north` pair is asymmetric in the source
and is kept out of this shared list). -/
def v1Stop : List (List Char) :=
  ["main", "tank", "dyke", "canal", "canyon", "diversion", "city", "town", "fall", "falls",
    "west", "east", "south", "storage", "river", "saint", "kloof", "berg", "santa", "valley",
    "upper", "lower", "creek", "lake", "reservoir", "lock", "barrage", "lago", "shuiku",
    "presa", "embalse", "barragem", "agua", "stuwal", "weir", "dike", "levee", "mountain",
    "hill", "auxiliar", "auxiliary", "riacho", "ribeirao", "ribeiro", "ribeira",
    "riviere"].map String.toList

/-- Eligibility of a token pair in the fallback: both longer than three
characters, neither stoplisted; the source compares the geocoded token
against the misspelling `norht` and the ICOLD token against `north`. -/
def tokenPairOK (stop : List (List Char)) (ic g : List Char) : Bool :=
  decide (3 < g.length) && decide (3 < ic.length) && !stop.contains g && !stop.contains ic &&
    g != "norht".toList && ic != "north".toList

/-- Inner loop of the token-level fallback (over the geocoded tokens):
`none` models a crash inside `similar`. -/
def tfInnerV1 (stop : List (List Char)) (t : ℚ) (ic : List Char) :
    List (List Char) → Option Bool
  | [] => some false
  | g :: gs =>
    if tokenPairOK stop ic g then
      match similar ic g with
      | none => none
      | some v => if t ≤ v then some true else tfInnerV1 stop t ic gs
    else tfInnerV1 stop t ic gs

/-- Outer loop of the token-level fallback (over the ICOLD tokens). -/
def tfOuterV1 (stop : List (List Char)) (t : ℚ) (tr : List (List Char)) :
    List (List Char) → Option Bool
  | [] => some false
  | ic :: ics =>
    match tfInnerV1 stop t ic tr with
    | none => none
    | some true => some true
    | some false => tfOuterV1 stop t tr ics

/-- Raw sentinel test shared by the three name blocks of `damname_similar`
(the inputs are compared literally, without lowering or stripping). -/
def rawBad (x y : List Char) : Bool := sentinelList.contains x || sentinelList.contains y

/-- First name block of `damname_similar` (the only block that assigns
`geocoded_name_input_simple`; the third component carries it for the later
blocks — `none` when the block returned before assigning it). -/
def damBlock1 (t : ℚ) (iso dn gn : List Char) : Option (ℚ × Bool × Option (List Char)) :=
  if rawBad dn gn then some (0, false, none)
  else if unknownStart dn || unknownStart gn then some (0, false, none)
  else if gn = "not found".toList then some (-1, false, none)
  else
    let d := processNameWith v1Titles iso dn
    let g := processNameWith v1Titles iso gn
    if continueOrNot d g = false then some (0, false, some g)
    else if d ≠ [] ∧ g ≠ [] then
      match similar d g with
      | none => none
      | some v =>
        if t ≤ v then some (1, false, some g)
        else if containsAsUnit d g then some (1, false, some g)
        else
          match tfOuterV1 v1Stop t (tokenizeV1 g) (tokenizeV1 d) with
          | none => none
          | some alt => some (0, alt, some g)
    else some (0, false, some g)

/-- Second and third name blocks of `damname_similar`: identical to the
first except that `geocoded_name_input_simple` is reused from the first
block — `gs = none` models the `UnboundLocalError` raised when the first
block returned through an early branch without assigning it. -/
def damBlockN (t : ℚ) (iso nm gnRaw : List Char) (gs : Option (List Char)) (passIn : ℚ)
    (altIn : Bool) : Option (ℚ × Bool) :=
  if rawBad nm gnRaw then some (0, altIn)
  else if unknownStart nm || unknownStart gnRaw then some (0, altIn)
  else if gnRaw = "not found".toList then some (-1, altIn)
  else
    match gs with
    | none => none
    | some g =>
      let d := processNameWith v1Titles iso nm
      if continueOrNot d g = false then some (0, altIn)
      else if d ≠ [] ∧ g ≠ [] then
        match similar d g with
        | none => none
        | some v =>
          if t ≤ v then some (1, altIn)
          else if containsAsUnit d g then some (1, altIn)
          else
            match tfOuterV1 v1Stop t (tokenizeV1 g) (tokenizeV1 d) with
            | none => none
            | some alt => some (passIn, altIn || alt)
      else some (passIn, altIn)

/-- `damname_similar(similarity_t, dam_name_input, other_dam_name_input,
reservoir_name_input, geocoded_name_input, this_country_ISO_input)` from
`Georeferencing_functions.py`.  `none` models an uncaught exception. -/
def damname_similar (t : ℚ) (dn odn rn gn iso : List Char) : Option ℚ :=
  match damBlock1 t iso dn gn with
  | none => none
  | some (p1, a1, gs) =>
    match (if p1 = 1 then some (p1, a1) else damBlockN t iso odn gn gs p1 a1) with
    | none => none
    | some (p2, a2) =>
      match (if p2 = 1 then some (p2, a2) else damBlockN t iso rn gn gs p2 a2) with
      | none => none
      | some (p3, a3) => some (if p3 = 1 then 1 else if a3 then 1 / 2 else 0)

/-! ## `river_similar` -/

/-- The ancillary-title list of `river_similar` (repeated three times in the
source). -/
def riverTitlesBase : List (List Char) :=
  [" river ", " creek ", " stream ", " rio ", " brook ", " run ", " bay ", " branch ",
    " slough ", " lake ", " pond ", " canyon ", " canal ", " dike ", " dyke ", " gulch ",
    " tributary ", " drain ", " draw ", " channel ", " arroyo ", " ditch ", " offstream ",
    " riv. ", " bayou ", " coulee ", " fork ", " riacho ", " ribeirao ", " ribeiro ",
    " ribeira ", " riviere "].map String.toList

/-- `to_be_removed` of `river_similar`. -/
def riverTitles : List (List Char) := riverTitlesBase ++ riverTitlesBase ++ riverTitlesBase

/-- Name processing of `river_similar` (accents, titles, strip: no
China-specific suffix handling). -/
def processRiver (nm : List Char) : List Char :=
  pyStrip (riverTitles.foldl
    (fun s tt => if occursIn tt s then pyReplace tt [' '] s else s)
    ([' '] ++ remove_accents nm ++ [' ']))

/-- The token stoplist of `river_similar`'s fallback (shared part). -/
def riverStop : List (List Char) :=
  ["main", "tank", "diversion", "dike", "dyke", "canal", "city", "town", "fall", "falls",
    "west", "east", "south", "saint", "kloof", "berg", "santa", "valley", "upper", "lower",
    "river", "creek", "stream", "brook", "branch", "slough", "lake", "pond", "canyon",
    "gulch", "tributary", "drain", "draw", "channel", "arroyo", "ditch", "offstream",
    "bayou", "coulee", "fork", "mountain", "hill", "auxiliar", "auxiliary", "riacho",
    "ribeirao", "ribeiro", "ribeira", "riviere"].map String.toList

/-- `river_similar(similarity_t, ICOLD_river, registry_river)` from
`Georeferencing_functions.py`.  The whole-string `similar` value is computed
unconditionally (before the gate is consulted), so its crash propagates even
for gated-out pairs. -/
def river_similar (t : ℚ) (ir rr : List Char) : Option ℚ :=
  if sentinelList.contains ir || sentinelList.contains rr ||
      rr = "sem denominação".toList then some 0
  else if unknownStart ir || unknownStart rr then some 0
  else
    let i := processRiver ir
    let r := processRiver rr
    let cont := numGate (digitRuns i) (digitRuns r) (tokenizeV1 i) (tokenizeV1 r) &&
      !dirGate (tokenizeV1 i) (tokenizeV1 r)
    match similar i r with
    | none => none
    | some v =>
      if t ≤ v ∧ cont = true then some 1
      else if (i ≠ [] ∧ r ≠ []) ∧ cont = true then
        if containsAsUnit i r then some 1
        else
          match tfOuterV1 riverStop t (tokenizeV1 r) (tokenizeV1 i) with
          | none => none
          | some alt => some (if alt then 1 / 2 else 0)
      else some 0

/-! ## `damname_similar_v2` -/

/-- The (shorter) ancillary-title list of `damname_similar_v2` (repeated
three times in the source). -/
def v2TitlesBase : List (List Char) :=
  [" lake ", " dam ", " reservoir ", " barrage ", " lago ", " shuiku ", " lac ", " presa ",
    " embalse "].map String.toList

/-- `to_be_removed` of `damname_similar_v2`. -/
def v2Titles : List (List Char) := v2TitlesBase ++ v2TitlesBase ++ v2TitlesBase

/-- The delimiter cascade of `damname_similar_v2` (no parenthesis
splitting). -/
def tokenizeV2 (s : List Char) : List (List Char) :=
  ((((pySplitWS s).flatMap (splitChar ',')).flatMap (splitChar '.')).flatMap
    (splitChar '-')).flatMap (splitChar '/') |>.filter (· ≠ [])

/-- Token pair eligibility in `damname_similar_v2`'s fallback (reduced
stoplist, same asymmetric `norht`/`north` pair). -/
def tokenPairOKV2 (ic g : List Char) : Bool :=
  decide (3 < g.length) && decide (3 < ic.length) &&
    g != "west".toList && ic != "west".toList && g != "east".toList && ic != "east".toList &&
    g != "south".toList && ic != "south".toList && g != "norht".toList &&
    ic != "north".toList && g != "storage".toList && ic != "storage".toList

/-- The token-level fallback of `damname_similar_v2` (total: `similar_v2`
cannot raise). -/
def tfV2 (t : ℚ) (tr tl : List (List Char)) : Bool :=
  tl.any fun ic => tr.any fun g => tokenPairOKV2 ic g && decide (t ≤ similar_v2 ic g)

/-- First name block of `damname_similar_v2`. -/
def v2Block1 (t : ℚ) (iso dn gn : List Char) : ℚ × Option (List Char) :=
  if dn = [] ∨ gn = [] then (0, none)
  else if gn = "not found".toList then (-1, none)
  else
    let d := processNameWith v2Titles iso dn
    let g := processNameWith v2Titles iso gn
    if t ≤ similar_v2 d g then (1, some g)
    else if containsAsUnit d g then (1, some g)
    else if tfV2 t (tokenizeV2 g) (tokenizeV2 d) then (1, some g)
    else (0, some g)

/-- Second and third name blocks of `damname_similar_v2` (`gs = none` models
the `UnboundLocalError` on the unassigned `geocoded_name_input_simple`). -/
def v2BlockN (t : ℚ) (iso nm gnRaw : List Char) (gs : Option (List Char)) (passIn : ℚ) :
    Option ℚ :=
  if nm = [] ∨ gnRaw = [] then some 0
  else if gnRaw = "not found".toList then some (-1)
  else
    match gs with
    | none => none
    | some g =>
      let d := processNameWith v2Titles iso nm
      if t ≤ similar_v2 d g then some 1
      else if containsAsUnit d g then some 1
      else if tfV2 t (tokenizeV2 g) (tokenizeV2 d) then some 1
      else some passIn

/-- `damname_similar_v2(...)` from `Georeferencing_functions.py`: the lenient
variant used against geocoder output; returns the raw pass value
(`1`, `0`, or `-1` for the `not found` sentinel). -/
def damname_similar_v2 (t : ℚ) (dn odn rn gn iso : List Char) : Option ℚ :=
  match v2Block1 t iso dn gn with
  | (p1, gs) =>
    if p1 = 1 then some p1
    else
      match v2BlockN t iso odn gn gs p1 with
      | none => none
      | some p2 =>
        if p2 = 1 then some p2
        else v2BlockN t iso rn gn gs p2

/-! ## The QA-ranking scan of `Geocoding_QA.py` (non-China branch)

One candidate per geocoded row sharing the source record's ICOLD ID; the
fields are the locals read at lines 565-575 (`match`/`scenario`/geocoded
name already lowercased and stripped upstream).  The Python intersection
`list(set(A) & set(B))` of index sets is modelled as an index-ascending
filter.  -/

/-- One geocoded candidate row for a source record. -/
structure GeoCand where
  matchPrec : List Char
  scenario : List Char
  address : List Char
  encodedAddr : List Char
  geocodedName : List Char
  row : Nat
deriving DecidableEq, Repr

/-- One quality tier: rank label, required match precision, admitted
scenario labels. -/
structure QATier where
  rank : ℚ
  mt : List Char
  scenOK : List Char → Bool

/-- Scenario test by membership. -/
def scenIn (xs : List String) : List Char → Bool := fun s => (xs.map String.toList).contains s

/-- Scenario test by prefix (`x[0:n] == p`). -/
def scenStarts (p : String) : List Char → Bool := fun s => s.take p.toList.length == p.toList

/-- `complete-match`. -/
def cmStr : List Char := "complete-match".toList

/-- `partial-match`. -/
def pmStr : List Char := "partial-match".toList

/-- The in-state in-town scenario labels (tiers 1 and 1.5). -/
def scensInTown : List String :=
  ["in-country in-state in-town", "in-country in-state in-town-2",
    "in-country in-state-2 in-town", "in-country in-state-2 in-town-2"]

/-- The first tier: its rank (1 / 1.1 / 1.2) and scenario set depend on
which of the source's state and town fields are populated. -/
def tier1 (sp town : List Char) : QATier :=
  if sp ≠ [] ∧ town ≠ [] then ⟨1, cmStr, scenIn scensInTown⟩
  else if sp ≠ [] ∧ town = [] then
    ⟨11 / 10, cmStr, scenIn ["in-country in-state unknown-town",
      "in-country in-state-2 unknown-town"]⟩
  else if sp = [] ∧ town ≠ [] then
    ⟨11 / 10, cmStr, scenIn ["in-country unknown-state in-town",
      "in-country unknown-state in-town-2"]⟩
  else ⟨6 / 5, cmStr, scenIn ["in-country unknown-state unknown-town"]⟩

/-- Tiers 1.5 through 8.5 in scan order (ranks ascending, alternating
complete/partial match). -/
def restTiers : List QATier :=
  [⟨3 / 2, pmStr, scenIn scensInTown⟩,
    ⟨2, cmStr, scenIn ["in-country in-state out-town", "in-country in-state unknown-town",
      "in-country in-state-2 out-town", "in-country in-state-2 unknown-town"]⟩,
    ⟨5 / 2, pmStr, scenIn ["in-country in-state out-town", "in-country in-state unknown-town",
      "in-country in-state-2 out-town", "in-country in-state-2 unknown-town"]⟩,
    ⟨3, cmStr, scenIn ["in-country unknown-state in-town",
      "in-country unknown-state in-town-2"]⟩,
    ⟨7 / 2, pmStr, scenIn ["in-country unknown-state in-town",
      "in-country unknown-state in-town-2"]⟩,
    ⟨4, cmStr, scenIn ["in-country out-state in-town", "in-country out-state in-town-2"]⟩,
    ⟨9 / 2, pmStr, scenIn ["in-country out-state in-town", "in-country out-state in-town-2"]⟩,
    ⟨5, cmStr, scenIn ["in-country unknown-state out-town",
      "in-country unknown-state unknown-town"]⟩,
    ⟨11 / 2, pmStr, scenIn ["in-country unknown-state out-town",
      "in-country unknown-state unknown-town"]⟩,
    ⟨6, cmStr, scenIn ["in-country out-state out-town", "in-country out-state unknown-town"]⟩,
    ⟨13 / 2, pmStr, scenIn ["in-country out-state out-town",
      "in-country out-state unknown-town"]⟩,
    ⟨7, cmStr, scenStarts "unknown-country "⟩,
    ⟨15 / 2, pmStr, scenStarts "unknown-country "⟩,
    ⟨8, cmStr, scenStarts "out-country "⟩,
    ⟨17 / 2, pmStr, scenStarts "out-country "⟩]

/-- The full ordered tier list for a source record. -/
def tierListQA (sp town : List Char) : List QATier := tier1 sp town :: restTiers

/-- Whether the candidate's geocoding query carried a country restriction. -/
def restrictedQ (c : GeoCand) : Bool := occursIn "&components=country:".toList c.encodedAddr

/-- Address-scenario rank of a candidate: the index of its address in the
cleaned scenario list (`rank_index[0]`), plus `0.1` when the query carried no
country restriction; `none` models the `IndexError` when the address does not
occur. -/
def addrRankQ (scList : List (List Char)) (c : GeoCand) : Option ℚ :=
  match scList.findIdx? (· == c.address) with
  | none => none
  | some i => some ((i : ℚ) + if restrictedQ c then 0 else 1 / 10)

/-- Candidates of one tier (match precision and scenario filter; the Python
index-set intersection, read in ascending index order). -/
def tierSel (cs : List GeoCand) (tr : QATier) : List GeoCand :=
  cs.filter fun c => c.matchPrec == tr.mt && tr.scenOK c.scenario

/-- Sort key: address-scenario rank, ascending (`sorted(..., key=...)`,
stable). -/
def keyLE : GeoCand × ℚ → GeoCand × ℚ → Prop := fun p q => p.2 ≤ q.2

instance : DecidableRel keyLE := fun p q => inferInstanceAs (Decidable (p.2 ≤ q.2))

instance : IsTotal (GeoCand × ℚ) keyLE := ⟨fun p q => le_total p.2 q.2⟩

instance : IsTrans (GeoCand × ℚ) keyLE := ⟨fun _ _ _ h h' => le_trans h h'⟩

/-- Evaluate `f` over a list, propagating the first failure (the Python list
comprehensions building the parallel rank / name-pass arrays crash at the
first failing element). -/
def optMapList (f : α → Option β) : List α → Option (List β)
  | [] => some []
  | a :: l =>
    match f a with
    | none => none
    | some b =>
      match optMapList f l with
      | none => none
      | some bs => some (b :: bs)

/-- The tier scan: for each tier in order, collect its candidates; when
nonempty, compute their address ranks and name-pass values (`none` = crash);
when the best name pass is 1, emit the first candidate in address-rank order
whose name passes, labelled with the tier's rank; otherwise continue.  All
tiers exhausted: no selection, terminal rank 9. -/
def scanTiers (np : GeoCand → Option ℚ) (scList : List (List Char)) (cs : List GeoCand) :
    List QATier → Option (Option GeoCand × ℚ)
  | [] => some (none, 9)
  | tr :: ts =>
    let sel := tierSel cs tr
    if sel = [] then scanTiers np scList cs ts
    else
      match optMapList (addrRankQ scList) sel with
      | none => none
      | some rs =>
        match optMapList np sel with
        | none => none
        | some ps =>
          match pyMax ps with
          | none => none
          | some m =>
            if m = 1 then
              match (List.insertionSort keyLE (sel.zip rs)).find?
                  (fun p => np p.1 == some 1) with
              | some p => some (some p.1, tr.rank)
              | none => none
            else scanTiers np scList cs ts

/-- Name-pass value of one candidate (`damname_similar_v2` against the
source record's three names, as called at line 607 of `Geocoding_QA.py`). -/
def npQA (t : ℚ) (dn odn rn iso : List Char) (c : GeoCand) : Option ℚ :=
  damname_similar_v2 t dn odn rn c.geocodedName iso

/-- The QA-ranking scan of `Geocoding_QA.py` (lines 577-1040, non-China
branch) for one source record and its candidate rows. -/
def QA_scan (t : ℚ) (dn odn rn iso : List Char) (scList : List (List Char))
    (sp town : List Char) (cs : List GeoCand) : Option (Option GeoCand × ℚ) :=
  scanTiers (npQA t dn odn rn iso) scList cs (tierListQA sp town)

/-- A candidate satisfies a quality tier's composite predicate: required
match precision, admitted scenario, and name confidence 1. -/
def tierSat (np : GeoCand → Option ℚ) (tr : QATier) (c : GeoCand) : Prop :=
  c.matchPrec = tr.mt ∧ tr.scenOK c.scenario = true ∧ np c = some 1

instance (np : GeoCand → Option ℚ) (tr : QATier) (c : GeoCand) :
    Decidable (tierSat np tr c) :=
  inferInstanceAs
    (Decidable (c.matchPrec = tr.mt ∧ tr.scenOK c.scenario = true ∧ np c = some 1))

instance : DecidableRel (fun u v : QATier => u.rank ≤ v.rank) :=
  fun u v => inferInstanceAs (Decidable (u.rank ≤ v.rank))

/-! Concrete test vectors for the QA scan: a source record
(`dam_name = "tuttle creek"`, state `kansas`, no town) and candidate rows. -/

/-- A complete-match, in-state candidate with a country-restricted query and
a passing geocoded name. -/
def tCand1 : GeoCand :=
  ⟨"complete-match".toList, "in-country in-state unknown-town".toList,
    "tuttle creek dam, kansas".toList, "addr=x&components=country:us".toList,
    "tuttle creek dam".toList, 0⟩

/-- The same candidate fields on a different spreadsheet row. -/
def tCand2 : GeoCand := { tCand1 with row := 1 }

/-- A candidate whose geocoded name does not pass the name scorer. -/
def tCand3 : GeoCand := { tCand1 with geocodedName := "zzzz".toList }

/-- The cleaned address-scenario list of the test record. -/
def tScList : List (List Char) := ["tuttle creek dam, kansas".toList]

/-! ## Properties of the Ratcliff/Obershelp matcher -/

theorem foldl_preserve {α β : Type} {P : β → Prop} {f : β → α → β}
    (hf : ∀ s x, P s → P (f s x)) : ∀ (l : List α) (s : β), P s → P (l.foldl f s)
  | [], _, h => h
  | x :: xs, s, h => foldl_preserve hf xs (f s x) (hf s x h)

theorem lcpLen_le_left : ∀ a b : List Char, lcpLen a b ≤ a.length
  | [], _ => Nat.le_refl _
  | _ :: _, [] => Nat.zero_le _
  | a :: as, b :: bs => by
    unfold lcpLen
    split
    · exact Nat.succ_le_succ (lcpLen_le_left as bs)
    · exact Nat.zero_le _

theorem lcpLen_le_right : ∀ a b : List Char, lcpLen a b ≤ b.length
  | [], _ => Nat.zero_le _
  | _ :: _, [] => Nat.le_refl _
  | a :: as, b :: bs => by
    unfold lcpLen
    split
    · exact Nat.succ_le_succ (lcpLen_le_right as bs)
    · exact Nat.zero_le _

theorem lcpLen_self : ∀ a : List Char, lcpLen a a = a.length
  | [] => rfl
  | c :: t => by simp [lcpLen, lcpLen_self t]

theorem take_eq_of_le_lcpLen : ∀ (k : Nat) (a b : List Char), k ≤ lcpLen a b →
    a.take k = b.take k := by
  intro k
  induction k with
  | zero => intro a b _; simp
  | succ n ih =>
    intro a b h
    match a, b with
    | [], _ => simp [lcpLen] at h
    | _ :: _, [] => simp [lcpLen] at h
    | x :: xs, y :: ys =>
      unfold lcpLen at h
      split at h
      · rename_i hxy
        subst hxy
        simp only [List.take_succ_cons]
        rw [ih xs ys (Nat.le_of_succ_le_succ h)]
      · omega

theorem lcpLen_pos_heads : ∀ (a b : List Char), 0 < lcpLen a b →
    ∃ c as bs, a = c :: as ∧ b = c :: bs := by
  intro a b h
  match a, b with
  | [], _ => simp [lcpLen] at h
  | _ :: _, [] => simp [lcpLen] at h
  | x :: xs, y :: ys =>
    unfold lcpLen at h
    split at h
    · rename_i hxy; subst hxy; exact ⟨x, xs, ys, rfl, rfl⟩
    · omega

theorem betterCand_size_le (s c : Nat × Nat × Nat) : s.2.2 ≤ (betterCand s c).2.2 := by
  unfold betterCand
  split <;> omega

/-- The block returned by `bestMatch` really is a block: its size is at most
the common-prefix length at its position. -/
theorem bestMatch_le_lcp (a b : List Char) :
    (bestMatch a b).2.2 ≤ lcpLen (a.drop (bestMatch a b).1) (b.drop (bestMatch a b).2.1) := by
  unfold bestMatch
  apply @foldl_preserve _ _
    (fun m : Nat × Nat × Nat => m.2.2 ≤ lcpLen (a.drop m.1) (b.drop m.2.1)) _
  · intro s i hs
    apply @foldl_preserve _ _
      (fun m : Nat × Nat × Nat => m.2.2 ≤ lcpLen (a.drop m.1) (b.drop m.2.1)) _
    · intro s' j hs'
      unfold betterCand
      split
      · exact Nat.le_refl _
      · exact hs'
    · exact hs
  · simp

/-- Positional bounds for the block returned by `bestMatch` (trivial when the
size is zero). -/
theorem bestMatch_pos_le (a b : List Char) (h : (bestMatch a b).2.2 ≠ 0) :
    (bestMatch a b).1 + (bestMatch a b).2.2 ≤ a.length ∧
      (bestMatch a b).2.1 + (bestMatch a b).2.2 ≤ b.length := by
  have h1 := bestMatch_le_lcp a b
  have h2 := lcpLen_le_left (a.drop (bestMatch a b).1) (b.drop (bestMatch a b).2.1)
  have h3 := lcpLen_le_right (a.drop (bestMatch a b).1) (b.drop (bestMatch a b).2.1)
  rw [List.length_drop] at h2
  rw [List.length_drop] at h3
  omega

theorem matchTotalAux_le_left : ∀ (f : Nat) (a b : List Char),
    matchTotalAux f a b ≤ a.length := by
  intro f
  induction f with
  | zero => intro a b; exact Nat.zero_le _
  | succ n ih =>
    intro a b
    show (if (bestMatch a b).2.2 = 0 then 0 else _) ≤ _
    split
    · exact Nat.zero_le _
    · rename_i hk
      have hp := bestMatch_pos_le a b hk
      have hl := ih (a.take (bestMatch a b).1) (b.take (bestMatch a b).2.1)
      have hr := ih (a.drop ((bestMatch a b).1 + (bestMatch a b).2.2))
        (b.drop ((bestMatch a b).2.1 + (bestMatch a b).2.2))
      rw [List.length_take] at hl
      rw [List.length_drop] at hr
      omega

theorem matchTotalAux_le_right : ∀ (f : Nat) (a b : List Char),
    matchTotalAux f a b ≤ b.length := by
  intro f
  induction f with
  | zero => intro a b; exact Nat.zero_le _
  | succ n ih =>
    intro a b
    show (if (bestMatch a b).2.2 = 0 then 0 else _) ≤ _
    split
    · exact Nat.zero_le _
    · rename_i hk
      have hp := bestMatch_pos_le a b hk
      have hl := ih (a.take (bestMatch a b).1) (b.take (bestMatch a b).2.1)
      have hr := ih (a.drop ((bestMatch a b).1 + (bestMatch a b).2.2))
        (b.drop ((bestMatch a b).2.1 + (bestMatch a b).2.2))
      rw [List.length_take] at hl
      rw [List.length_drop] at hr
      omega

theorem matchTotal_le_left (a b : List Char) : matchTotal a b ≤ a.length :=
  matchTotalAux_le_left _ a b

theorem matchTotal_le_right (a b : List Char) : matchTotal a b ≤ b.length :=
  matchTotalAux_le_right _ a b

theorem matchTotalAux_succ (n : Nat) (a b : List Char) :
    matchTotalAux (n + 1) a b =
      if (bestMatch a b).2.2 = 0 then 0
      else
        matchTotalAux n (a.take (bestMatch a b).1) (b.take (bestMatch a b).2.1) +
          (bestMatch a b).2.2 +
          matchTotalAux n (a.drop ((bestMatch a b).1 + (bestMatch a b).2.2))
            (b.drop ((bestMatch a b).2.1 + (bestMatch a b).2.2)) := rfl

theorem betterCand_cand_le (s c : Nat × Nat × Nat) : c.2.2 ≤ (betterCand s c).2.2 := by
  unfold betterCand
  split <;> omega

theorem foldl_size_mono {α : Type} {f : Nat × Nat × Nat → α → Nat × Nat × Nat}
    (hf : ∀ s x, s.2.2 ≤ (f s x).2.2) :
    ∀ (l : List α) (s : Nat × Nat × Nat), s.2.2 ≤ (l.foldl f s).2.2
  | [], _ => Nat.le_refl _
  | x :: xs, s => Nat.le_trans (hf s x) (foldl_size_mono hf xs (f s x))

theorem le_foldl_of_mem {α : Type} {f : Nat × Nat × Nat → α → Nat × Nat × Nat} {k : Nat}
    {x₀ : α} (hmono : ∀ s x, s.2.2 ≤ (f s x).2.2) (hhit : ∀ s, k ≤ (f s x₀).2.2)
    {l : List α} (hx : x₀ ∈ l) (s : Nat × Nat × Nat) : k ≤ (l.foldl f s).2.2 := by
  obtain ⟨l1, l2, rfl⟩ := List.append_of_mem hx
  rw [List.foldl_append, List.foldl_cons]
  exact Nat.le_trans (hhit _) (foldl_size_mono hmono l2 _)

/-- No shared character means `bestMatch` finds nothing. -/
theorem bestMatch_size_zero (a b : List Char) (h : ∀ c, c ∈ a → c ∉ b) :
    (bestMatch a b).2.2 = 0 := by
  unfold bestMatch
  apply @foldl_preserve _ _ (fun m : Nat × Nat × Nat => m.2.2 = 0) _
  · intro s i hs
    apply @foldl_preserve _ _ (fun m : Nat × Nat × Nat => m.2.2 = 0) _
    · intro s' j hs'
      have hk : lcpLen (a.drop i) (b.drop j) = 0 := by
        by_contra hk0
        obtain ⟨c, as, bs, ha, hb⟩ := lcpLen_pos_heads _ _ (Nat.pos_of_ne_zero hk0)
        have hca : c ∈ a := List.mem_of_mem_drop (ha ▸ List.mem_cons_self c as)
        have hcb : c ∈ b := List.mem_of_mem_drop (hb ▸ List.mem_cons_self c bs)
        exact h c hca hcb
      unfold betterCand
      rw [hk]
      split
      · rename_i hlt
        simp [hs'] at hlt
      · exact hs'
    · exact hs
  · rfl

/-- A shared character gives `bestMatch` a nonempty block. -/
theorem bestMatch_size_pos (a b : List Char) (c : Char) (hca : c ∈ a) (hcb : c ∈ b) :
    0 < (bestMatch a b).2.2 := by
  obtain ⟨i, hi, hgi⟩ := List.getElem_of_mem hca
  obtain ⟨j, hj, hgj⟩ := List.getElem_of_mem hcb
  have hlcp : 0 < lcpLen (a.drop i) (b.drop j) := by
    rw [List.drop_eq_getElem_cons hi, List.drop_eq_getElem_cons hj, hgi, hgj]
    unfold lcpLen
    simp
  unfold bestMatch
  refine @le_foldl_of_mem _ _ _ i ?_ ?_ _ ?_ _
  · intro s x
    exact foldl_size_mono (fun s' x' => betterCand_size_le _ _) _ _
  · intro s
    refine @le_foldl_of_mem _ _ _ j ?_ ?_ _ ?_ _
    · intro s' x'
      exact betterCand_size_le _ _
    · intro s'
      exact Nat.le_trans hlcp
        (betterCand_cand_le s' (i, j, lcpLen (a.drop i) (b.drop j)))
    · exact List.mem_range.mpr hj
  · exact List.mem_range.mpr hi

theorem matchTotalAux_zero_of_noCommon (f : Nat) (a b : List Char)
    (h : ∀ c, c ∈ a → c ∉ b) : matchTotalAux f a b = 0 := by
  cases f with
  | zero => rfl
  | succ n => rw [matchTotalAux_succ, if_pos (bestMatch_size_zero a b h)]

/-- `M = 0` exactly when the two strings share no character. -/
theorem matchTotal_eq_zero_iff (a b : List Char) :
    matchTotal a b = 0 ↔ ∀ c, c ∈ a → c ∉ b := by
  constructor
  · intro h
    by_contra hc
    push_neg at hc
    obtain ⟨c, hca, hcb⟩ := hc
    have hpos := bestMatch_size_pos a b c hca hcb
    have hla : a ≠ [] := by rintro rfl; simp at hca
    have : ∃ n, a.length + b.length = n + 1 := by
      cases a with
      | nil => exact absurd rfl hla
      | cons x t => exact ⟨t.length + b.length, by simp [List.length_cons]; omega⟩
    obtain ⟨n, hn⟩ := this
    unfold matchTotal at h
    rw [hn, matchTotalAux_succ, if_neg (by omega)] at h
    omega
  · intro h
    exact matchTotalAux_zero_of_noCommon _ a b h

theorem bestMatch_nil_left (b : List Char) : bestMatch [] b = (0, 0, 0) := rfl

theorem matchTotalAux_nil_left (f : Nat) (b : List Char) : matchTotalAux f [] b = 0 := by
  cases f with
  | zero => rfl
  | succ n => rw [matchTotalAux_succ, bestMatch_nil_left]; simp

/-- On equal nonempty strings the matcher finds the whole string at once. -/
theorem bestMatch_self (a : List Char) (h : a ≠ []) :
    (bestMatch a a).1 = 0 ∧ (bestMatch a a).2.1 = 0 ∧ (bestMatch a a).2.2 = a.length := by
  have hlen : 0 < a.length := List.length_pos.mpr h
  have hge : a.length ≤ (bestMatch a a).2.2 := by
    have hlcp : a.length ≤ lcpLen (a.drop 0) (a.drop 0) := by
      simp [lcpLen_self]
    unfold bestMatch
    refine @le_foldl_of_mem _ _ _ 0 ?_ ?_ _ ?_ _
    · intro s x
      exact foldl_size_mono (fun s' x' => betterCand_size_le _ _) _ _
    · intro s
      refine @le_foldl_of_mem _ _ _ 0 ?_ ?_ _ ?_ _
      · intro s' x'
        exact betterCand_size_le _ _
      · intro s'
        exact Nat.le_trans hlcp (betterCand_cand_le s' (0, 0, lcpLen (a.drop 0) (a.drop 0)))
      · exact List.mem_range.mpr hlen
    · exact List.mem_range.mpr hlen
  have h1 := bestMatch_le_lcp a a
  have h2 := lcpLen_le_left (a.drop (bestMatch a a).1) (a.drop (bestMatch a a).2.1)
  have h3 := lcpLen_le_right (a.drop (bestMatch a a).1) (a.drop (bestMatch a a).2.1)
  rw [List.length_drop] at h2
  rw [List.length_drop] at h3
  omega

theorem matchTotal_self (a : List Char) : matchTotal a a = a.length := by
  cases ha : a with
  | nil => rfl
  | cons c t =>
    rw [← ha]
    have hne : a ≠ [] := by rw [ha]; simp
    have hlen : 0 < a.length := List.length_pos.mpr hne
    obtain ⟨hi, hj, hk⟩ := bestMatch_self a hne
    obtain ⟨n, hn⟩ : ∃ n, a.length + a.length = n + 1 := ⟨a.length + a.length - 1, by omega⟩
    unfold matchTotal
    rw [hn, matchTotalAux_succ, hi, hj, hk, if_neg (by omega)]
    simp only [List.take_zero, Nat.zero_add, List.drop_length, matchTotalAux_nil_left]
    omega

/-- A full matching (`M` equal to both lengths) forces the strings to be
equal. -/
theorem matchTotalAux_full : ∀ (f : Nat) (a b : List Char),
    matchTotalAux f a b = a.length → matchTotalAux f a b = b.length → a = b := by
  intro f
  induction f with
  | zero =>
    intro a b h1 h2
    have h1' : (0 : Nat) = a.length := h1
    have h2' : (0 : Nat) = b.length := h2
    have ha : a = [] := List.length_eq_zero.mp h1'.symm
    have hb : b = [] := List.length_eq_zero.mp h2'.symm
    rw [ha, hb]
  | succ n ih =>
    intro a b h1 h2
    rw [matchTotalAux_succ] at h1 h2
    by_cases hk : (bestMatch a b).2.2 = 0
    · rw [if_pos hk] at h1 h2
      have ha : a = [] := List.length_eq_zero.mp h1.symm
      have hb : b = [] := List.length_eq_zero.mp h2.symm
      rw [ha, hb]
    · rw [if_neg hk] at h1 h2
      obtain ⟨hia, hjb⟩ := bestMatch_pos_le a b hk
      have hAa := matchTotalAux_le_left n (a.take (bestMatch a b).1) (b.take (bestMatch a b).2.1)
      have hAb := matchTotalAux_le_right n (a.take (bestMatch a b).1) (b.take (bestMatch a b).2.1)
      have hBa := matchTotalAux_le_left n (a.drop ((bestMatch a b).1 + (bestMatch a b).2.2))
        (b.drop ((bestMatch a b).2.1 + (bestMatch a b).2.2))
      have hBb := matchTotalAux_le_right n (a.drop ((bestMatch a b).1 + (bestMatch a b).2.2))
        (b.drop ((bestMatch a b).2.1 + (bestMatch a b).2.2))
      rw [List.length_take] at hAa hAb
      rw [List.length_drop] at hBa hBb
      have hA1 : matchTotalAux n (a.take (bestMatch a b).1) (b.take (bestMatch a b).2.1) =
          (a.take (bestMatch a b).1).length := by rw [List.length_take]; omega
      have hA2 : matchTotalAux n (a.take (bestMatch a b).1) (b.take (bestMatch a b).2.1) =
          (b.take (bestMatch a b).2.1).length := by rw [List.length_take]; omega
      have hB1 : matchTotalAux n (a.drop ((bestMatch a b).1 + (bestMatch a b).2.2))
          (b.drop ((bestMatch a b).2.1 + (bestMatch a b).2.2)) =
          (a.drop ((bestMatch a b).1 + (bestMatch a b).2.2)).length := by
        rw [List.length_drop]; omega
      have hB2 : matchTotalAux n (a.drop ((bestMatch a b).1 + (bestMatch a b).2.2))
          (b.drop ((bestMatch a b).2.1 + (bestMatch a b).2.2)) =
          (b.drop ((bestMatch a b).2.1 + (bestMatch a b).2.2)).length := by
        rw [List.length_drop]; omega
      have hleft := ih _ _ hA1 hA2
      have hright := ih _ _ hB1 hB2
      have hblock : (a.drop (bestMatch a b).1).take (bestMatch a b).2.2 =
          (b.drop (bestMatch a b).2.1).take (bestMatch a b).2.2 :=
        take_eq_of_le_lcpLen _ _ _ (bestMatch_le_lcp a b)
      have hsplita : a = a.take (bestMatch a b).1 ++
          ((a.drop (bestMatch a b).1).take (bestMatch a b).2.2 ++
            a.drop ((bestMatch a b).1 + (bestMatch a b).2.2)) := by
        rw [← List.drop_drop]
        rw [List.take_append_drop, List.take_append_drop]
      have hsplitb : b = b.take (bestMatch a b).2.1 ++
          ((b.drop (bestMatch a b).2.1).take (bestMatch a b).2.2 ++
            b.drop ((bestMatch a b).2.1 + (bestMatch a b).2.2)) := by
        rw [← List.drop_drop]
        rw [List.take_append_drop, List.take_append_drop]
      calc a = a.take (bestMatch a b).1 ++
            ((a.drop (bestMatch a b).1).take (bestMatch a b).2.2 ++
              a.drop ((bestMatch a b).1 + (bestMatch a b).2.2)) := hsplita
        _ = b.take (bestMatch a b).2.1 ++
            ((b.drop (bestMatch a b).2.1).take (bestMatch a b).2.2 ++
              b.drop ((bestMatch a b).2.1 + (bestMatch a b).2.2)) := by
            rw [hleft, hblock, hright]
        _ = b := hsplitb.symm

/-! ## Properties of the ratio -/

theorem ratioQ_nonneg (a b : List Char) : 0 ≤ ratioQ a b := by
  unfold ratioQ
  split
  · norm_num
  · positivity

theorem ratioQ_le_one (a b : List Char) : ratioQ a b ≤ 1 := by
  unfold ratioQ
  split
  · norm_num
  · rename_i hT
    have hTpos : (0 : ℚ) < a.length + b.length := by
      exact_mod_cast Nat.pos_of_ne_zero hT
    rw [div_le_one hTpos]
    have h1 := matchTotal_le_left a b
    have h2 := matchTotal_le_right a b
    have h1' : (matchTotal a b : ℚ) ≤ a.length := by exact_mod_cast h1
    have h2' : (matchTotal a b : ℚ) ≤ b.length := by exact_mod_cast h2
    -- casts already aligned
    linarith

theorem ratioQ_eq_one_iff (a b : List Char) : ratioQ a b = 1 ↔ a = b := by
  unfold ratioQ
  split
  · rename_i hT
    have ha : a = [] := List.length_eq_zero.mp (by omega)
    have hb : b = [] := List.length_eq_zero.mp (by omega)
    simp [ha, hb]
  · rename_i hT
    have hTne : ((a.length : ℚ) + b.length) ≠ 0 := by
      have : (0 : ℚ) < a.length + b.length := by exact_mod_cast Nat.pos_of_ne_zero hT
      linarith
    rw [div_eq_one_iff_eq (by exact hTne)]
    constructor
    · intro h
      have h' : 2 * matchTotal a b = a.length + b.length := by exact_mod_cast h
      have h1 := matchTotal_le_left a b
      have h2 := matchTotal_le_right a b
      have h3 : matchTotal a b = a.length := by omega
      have h4 : matchTotal a b = b.length := by omega
      exact matchTotalAux_full (a.length + b.length) a b h3 h4
    · intro h
      subst h
      rw [matchTotal_self]
      -- casts already aligned
      ring

theorem ratioQ_eq_zero_iff (a b : List Char) :
    ratioQ a b = 0 ↔ (matchTotal a b = 0 ∧ a.length + b.length ≠ 0) := by
  unfold ratioQ
  split
  · rename_i hT
    constructor
    · intro h; norm_num at h
    · intro h; exact absurd hT h.2
  · rename_i hT
    have hTpos : (0 : ℚ) < (a.length : ℚ) + b.length := by
      exact_mod_cast Nat.pos_of_ne_zero hT
    rw [div_eq_zero_iff]
    constructor
    · intro h
      refine ⟨?_, hT⟩
      rcases h with h | h
      · have : 2 * matchTotal a b = 0 := by exact_mod_cast h
        omega
      · exact absurd h (by linarith)
    · intro h
      left
      rw [h.1]
      norm_num

/-- The zero-score relation is symmetric (both orders agree on "no shared
character"). -/
theorem ratioQ_zero_symm (a b : List Char) : ratioQ a b = 0 ↔ ratioQ b a = 0 := by
  rw [ratioQ_eq_zero_iff, ratioQ_eq_zero_iff, matchTotal_eq_zero_iff, matchTotal_eq_zero_iff]
  constructor
  · rintro ⟨h, hT⟩
    exact ⟨fun c hcb hca => h c hca hcb, by omega⟩
  · rintro ⟨h, hT⟩
    exact ⟨fun c hca hcb => h c hcb hca, by omega⟩

/-! ## Properties of `pyMax` -/

theorem foldl_max_mem (x : ℚ) : ∀ xs : List ℚ, xs.foldl max x ∈ x :: xs
  | [] => List.mem_singleton.mpr rfl
  | y :: ys => by
    have h := foldl_max_mem (max x y) ys
    rcases List.mem_cons.mp h with h | h
    · rcases max_choice x y with hm | hm <;> rw [List.foldl_cons, h, hm] <;> simp
    · simp [List.foldl_cons, h]

theorem foldl_max_le (x : ℚ) : ∀ (xs : List ℚ), x ≤ xs.foldl max x ∧
    ∀ v ∈ xs, v ≤ xs.foldl max x
  | [] => ⟨le_refl _, by simp⟩
  | y :: ys => by
    obtain ⟨h1, h2⟩ := foldl_max_le (max x y) ys
    refine ⟨le_trans (le_max_left x y) h1, ?_⟩
    intro v hv
    rcases List.mem_cons.mp hv with hv | hv
    · rw [hv, List.foldl_cons]
      exact le_trans (le_max_right x y) h1
    · rw [List.foldl_cons]
      exact h2 v hv

theorem pyMax_mem {l : List ℚ} {m : ℚ} (h : pyMax l = some m) : m ∈ l := by
  cases l with
  | nil => simp [pyMax] at h
  | cons x xs =>
    have hm : xs.foldl max x = m := Option.some.inj h
    rw [← hm]
    exact foldl_max_mem x xs

theorem pyMax_ge {l : List ℚ} {m : ℚ} (h : pyMax l = some m) : ∀ v ∈ l, v ≤ m := by
  cases l with
  | nil => simp [pyMax] at h
  | cons x xs =>
    have hm : m = xs.foldl max x := (Option.some.inj h).symm
    intro v hv
    rcases List.mem_cons.mp hv with hv | hv
    · rw [hm, hv]
      exact (foldl_max_le x xs).1
    · rw [hm]
      exact (foldl_max_le x xs).2 v hv

theorem pyMax_isSome {l : List ℚ} (h : l ≠ []) : (pyMax l).isSome := by
  cases l with
  | nil => exact absurd rfl h
  | cons x xs => simp [pyMax]

theorem pyMax_eq_none_iff {l : List ℚ} : pyMax l = none ↔ l = [] := by
  cases l with
  | nil => simp [pyMax]
  | cons x xs => simp [pyMax]

/-- Characterization of `pyMax` as the greatest member. -/
theorem pyMax_spec {l : List ℚ} {m : ℚ} : pyMax l = some m ↔ (m ∈ l ∧ ∀ v ∈ l, v ≤ m) := by
  constructor
  · intro h
    exact ⟨pyMax_mem h, pyMax_ge h⟩
  · rintro ⟨hm, hle⟩
    have hne : l ≠ [] := by rintro rfl; simp at hm
    obtain ⟨m', hm'⟩ := Option.isSome_iff_exists.mp (pyMax_isSome hne)
    have h1 : m' ≤ m := hle m' (pyMax_mem hm')
    have h2 : m ≤ m' := pyMax_ge hm' m hm
    rw [hm', le_antisymm h1 h2]

/-! ## Properties of `similar` -/

theorem similar_eq (a b : List Char) :
    similar a b =
      if badToken (pyStrip (pyLower a)) || badToken (pyStrip (pyLower b)) then some 0
      else if unknownStart (pyStrip (pyLower a)) || unknownStart (pyStrip (pyLower b)) then
        some 0
      else if (pyStrip (pyLower a)).contains '\\' || (pyStrip (pyLower b)).contains '\\' ||
          (pyStrip (pyLower a)).contains '/' || (pyStrip (pyLower b)).contains '/' then
        pyMax ((slashParts (pyStrip (pyLower a))).flatMap
          fun x => (slashParts (pyStrip (pyLower b))).map fun y => ratioQ x y)
      else some (ratioQ (pyStrip (pyLower a)) (pyStrip (pyLower b))) := rfl

theorem flatProd_eq_nil (AA BB : List (List Char)) (f : List Char → List Char → ℚ) :
    (AA.flatMap fun x => BB.map (f x)) = [] ↔ (AA = [] ∨ BB = []) := by
  rw [List.flatMap_eq_nil_iff]
  constructor
  · intro h
    by_cases hA : AA = []
    · exact Or.inl hA
    · obtain ⟨x, hx⟩ := List.exists_mem_of_ne_nil AA hA
      exact Or.inr (List.map_eq_nil_iff.mp (h x hx))
  · rintro (rfl | rfl) <;> simp

theorem allZero_flatProd (AA BB : List (List Char)) (f : List Char → List Char → ℚ) :
    (∀ v ∈ (AA.flatMap fun x => BB.map (f x)), v = 0) ↔
      ∀ x ∈ AA, ∀ y ∈ BB, f x y = 0 := by
  constructor
  · intro h x hx y hy
    exact h _ (List.mem_flatMap.mpr ⟨x, hx, List.mem_map.mpr ⟨y, hy, rfl⟩⟩)
  · intro h v hv
    obtain ⟨x, hx, hv⟩ := List.mem_flatMap.mp hv
    obtain ⟨y, hy, rfl⟩ := List.mem_map.mp hv
    exact h x hx y hy

theorem pyMax_zero_iff {l : List ℚ} (hpos : ∀ v ∈ l, 0 ≤ v) :
    pyMax l = some 0 ↔ (l ≠ [] ∧ ∀ v ∈ l, v = 0) := by
  constructor
  · intro h
    refine ⟨by rintro rfl; simp [pyMax] at h, ?_⟩
    intro v hv
    exact le_antisymm (pyMax_ge h v hv) (hpos v hv)
  · rintro ⟨hne, hall⟩
    apply pyMax_spec.mpr
    obtain ⟨x, hx⟩ := List.exists_mem_of_ne_nil l hne
    exact ⟨hall x hx ▸ hx, fun v hv => le_of_eq (hall v hv)⟩

/-! ## Claim theorems: the similarity scorer

Concrete evaluations are settled by `decide`; the arithmetic of `ℚ` is made
visible to it by restoring the default reducibility of the four base
operations. -/

set_option maxRecDepth 1000000

attribute [local semireducible] Rat.mul Rat.add Rat.sub Rat.inv

/-- **C3** (amended).  Every value `similar` returns lies in `[0, 1]`; and
for inputs that are (after lowering and stripping) non-sentinel, not
`unknown`/`unnamed`/`un-name`-prefixed, and free of slash and backslash,
`similar a b = 1` exactly when the lowercased trimmed forms of `a` and `b`
are equal.  (The code does not remove diacritics inside `similar`, and on
slash-delimited inputs a score of 1 does not imply equality; `similar` can
also raise on degenerate all-slash inputs, so the bound is stated for
returned values.) -/
theorem similar_bounds_and_one_iff :
    (∀ (a b : List Char) (v : ℚ), similar a b = some v → 0 ≤ v ∧ v ≤ 1) ∧
    (∀ a b : List Char,
      badToken (pyStrip (pyLower a)) = false → badToken (pyStrip (pyLower b)) = false →
      unknownStart (pyStrip (pyLower a)) = false →
      unknownStart (pyStrip (pyLower b)) = false →
      (pyStrip (pyLower a)).contains '\\' = false →
      (pyStrip (pyLower b)).contains '\\' = false →
      (pyStrip (pyLower a)).contains '/' = false →
      (pyStrip (pyLower b)).contains '/' = false →
      (similar a b = some 1 ↔ pyStrip (pyLower a) = pyStrip (pyLower b))) := by
  constructor
  · intro a b v h
    rw [similar_eq] at h
    split at h
    · simp only [Option.some.injEq] at h
      subst h
      norm_num
    · split at h
      · simp only [Option.some.injEq] at h
        subst h
        norm_num
      · split at h
        · have hv := pyMax_mem h
          obtain ⟨x, _, hv⟩ := List.mem_flatMap.mp hv
          obtain ⟨y, _, rfl⟩ := List.mem_map.mp hv
          exact ⟨ratioQ_nonneg x y, ratioQ_le_one x y⟩
        · have := (Option.some.inj h).symm
          rw [this]
          exact ⟨ratioQ_nonneg _ _, ratioQ_le_one _ _⟩
  · intro a b h1 h2 h3 h4 h5 h6 h7 h8
    rw [similar_eq, h1, h2, h3, h4, h5, h6, h7, h8]
    simp only [Bool.or_self, Bool.or_false, Bool.false_or, if_false, Bool.false_eq_true,
      Option.some.injEq]
    exact ratioQ_eq_one_iff _ _

/-- **C3** counterexample to the claim as stated: `"x/y"` and `"x"` are
non-sentinel and nonempty, their normalized forms (diacritics removed,
lowercased, trimmed) differ, yet `similar` scores them 1 through the
slash-splitting branch; and the bound "for all strings" fails on `"//"`,
where `similar` raises instead of returning a value. -/
theorem similar_one_not_norm_eq :
    similar "x/y".toList "x".toList = some 1 ∧
      pyStrip (pyLower (remove_accents "x/y".toList)) ≠
        pyStrip (pyLower (remove_accents "x".toList)) ∧
      similar "//".toList "x".toList = none := by decide

/-- **C3** witness: the bound applied at `similar "ab" "bacb" = some (2/3)`,
and the equality case applied at `"Foo "` / `"foo"`. -/
theorem similar_bounds_and_one_iff_witness :
    (0 ≤ (2 : ℚ) / 3 ∧ (2 : ℚ) / 3 ≤ 1) ∧
      similar "Foo ".toList "foo".toList = some 1 :=
  ⟨similar_bounds_and_one_iff.1 "ab".toList "bacb".toList (2 / 3) (by decide),
    (similar_bounds_and_one_iff.2 "Foo ".toList "foo".toList (by decide) (by decide)
      (by decide) (by decide) (by decide) (by decide) (by decide) (by decide)).mpr (by decide)⟩

/-- **C9** (amended).  The scorer agrees in both argument orders on
rejection: `similar a b` is zero exactly when `similar b a` is, and raises
exactly when the swapped call raises.  (Exact score symmetry fails: the
underlying `SequenceMatcher` ratio is order-dependent.) -/
theorem similar_zero_and_crash_symm : ∀ a b : List Char,
    (similar a b = some 0 ↔ similar b a = some 0) ∧
      (similar a b = none ↔ similar b a = none) := by
  intro a b
  rw [similar_eq a b, similar_eq b a]
  have e1 : (badToken (pyStrip (pyLower b)) || badToken (pyStrip (pyLower a))) =
      (badToken (pyStrip (pyLower a)) || badToken (pyStrip (pyLower b))) := Bool.or_comm _ _
  have e2 : (unknownStart (pyStrip (pyLower b)) || unknownStart (pyStrip (pyLower a))) =
      (unknownStart (pyStrip (pyLower a)) || unknownStart (pyStrip (pyLower b))) :=
    Bool.or_comm _ _
  have e3 : ((pyStrip (pyLower b)).contains '\\' || (pyStrip (pyLower a)).contains '\\' ||
        (pyStrip (pyLower b)).contains '/' || (pyStrip (pyLower a)).contains '/') =
      ((pyStrip (pyLower a)).contains '\\' || (pyStrip (pyLower b)).contains '\\' ||
        (pyStrip (pyLower a)).contains '/' || (pyStrip (pyLower b)).contains '/') := by
    cases (pyStrip (pyLower a)).contains '\\' <;> cases (pyStrip (pyLower b)).contains '\\' <;>
      cases (pyStrip (pyLower a)).contains '/' <;> cases (pyStrip (pyLower b)).contains '/' <;>
        rfl
  rw [e1, e2, e3]
  split_ifs with hc1 hc2 hc3
  · simp
  · simp
  · constructor
    · have hposL : ∀ v ∈ ((slashParts (pyStrip (pyLower a))).flatMap
          fun x => (slashParts (pyStrip (pyLower b))).map fun y => ratioQ x y), 0 ≤ v := by
        intro v hv
        obtain ⟨x, _, hv⟩ := List.mem_flatMap.mp hv
        obtain ⟨y, _, rfl⟩ := List.mem_map.mp hv
        exact ratioQ_nonneg x y
      have hposR : ∀ v ∈ ((slashParts (pyStrip (pyLower b))).flatMap
          fun x => (slashParts (pyStrip (pyLower a))).map fun y => ratioQ x y), 0 ≤ v := by
        intro v hv
        obtain ⟨x, _, hv⟩ := List.mem_flatMap.mp hv
        obtain ⟨y, _, rfl⟩ := List.mem_map.mp hv
        exact ratioQ_nonneg x y
      rw [pyMax_zero_iff hposL, pyMax_zero_iff hposR]
      rw [allZero_flatProd, allZero_flatProd]
      rw [Ne, Ne, flatProd_eq_nil, flatProd_eq_nil]
      constructor
      · rintro ⟨hne, hz⟩
        refine ⟨fun h => hne (h.symm.imp id id), ?_⟩
        intro y hy x hx
        exact (ratioQ_zero_symm x y).mp (hz x hx y hy)
      · rintro ⟨hne, hz⟩
        refine ⟨fun h => hne (h.symm.imp id id), ?_⟩
        intro x hx y hy
        exact (ratioQ_zero_symm y x).mp (hz y hy x hx)
    · rw [pyMax_eq_none_iff, pyMax_eq_none_iff, flatProd_eq_nil, flatProd_eq_nil]
      exact ⟨fun h => h.symm.imp id id, fun h => h.symm.imp id id⟩
  · constructor
    · simp only [Option.some.injEq]
      exact ratioQ_zero_symm _ _
    · simp

/-- **C9** counterexample to symmetry as claimed: the Ratcliff/Obershelp
matcher of `difflib` is order-dependent, and `similar` inherits it
(`similar "ab" "bacb" = 2/3` but `similar "bacb" "ab" = 1/3`). -/
theorem similar_not_symm :
    similar "ab".toList "bacb".toList ≠ similar "bacb".toList "ab".toList := by decide

/-- **C5** (amended).  `similar_v2` is the bare sequence ratio.  It agrees
with `similar` exactly on inputs the latter does not transform: already
lowercased and stripped, non-sentinel, not `unknown`-prefixed, and free of
slash/backslash (where `similar`'s splitting and short-circuits are
inactive). -/
theorem similar_agrees_with_v2 : ∀ a b : List Char,
    pyStrip (pyLower a) = a → pyStrip (pyLower b) = b →
    badToken a = false → badToken b = false →
    unknownStart a = false → unknownStart b = false →
    a.contains '\\' = false → b.contains '\\' = false →
    a.contains '/' = false → b.contains '/' = false →
    similar a b = some (similar_v2 a b) := by
  intro a b ha hb h1 h2 h3 h4 h5 h6 h7 h8
  rw [similar_eq, ha, hb, h1, h2, h3, h4, h5, h6, h7, h8]
  simp only [Bool.or_self, Bool.or_false, if_false, Bool.false_eq_true]
  rfl

/-- **C5** counterexample to the claim as stated: on the sentinel `"-999"`
the two scorers disagree (`similar` short-circuits to 0, `similar_v2`
returns the raw ratio 1). -/
theorem similar_ne_v2_on_sentinel :
    similar "-999".toList "-999".toList ≠
      some (similar_v2 "-999".toList "-999".toList) := by decide

/-- **C5** witness: the agreement applied at `"tuttle"` / `"creek"`. -/
theorem similar_agrees_with_v2_witness :
    similar "tuttle".toList "creek".toList =
      some (similar_v2 "tuttle".toList "creek".toList) :=
  similar_agrees_with_v2 "tuttle".toList "creek".toList (by decide) (by decide) (by decide)
    (by decide) (by decide) (by decide) (by decide) (by decide) (by decide) (by decide)

/-- **C2**.  The classification functions are not total: `similar` raises
`ValueError` (`max` of an empty sequence) on an input made only of slashes,
`river_similar` inherits that crash, and both `damname_similar` and
`damname_similar_v2` raise `UnboundLocalError` when the first name is empty
but a later name is valid (`geocoded_name_input_simple` is only assigned in
the first name block).  Each conjunct evaluates the embedded function at the
failing input to the crash value `none`. -/
theorem core_crash_paths :
    similar "//".toList "x".toList = none ∧
      damname_similar (1 / 2) "".toList "foo".toList "".toList "lake x".toList "us".toList =
        none ∧
      river_similar (1 / 2) "//".toList "x".toList = none ∧
      damname_similar_v2 (1 / 2) "".toList "foo".toList "".toList "lake x".toList "us".toList =
        none := by decide

/-- **C10**.  `year_similar` returns 1 exactly when both arguments are
nonempty all-digit strings whose values differ by at most one; in every
other case it returns 0, and it never returns anything else (total, no
exception path). -/
theorem year_similar_spec : ∀ y1 y2 : List Char,
    (year_similar y1 y2 = 1 ↔ (pyIsdigit y1 = true ∧ pyIsdigit y2 = true ∧
      ((digitsToNat y1 : ℤ) - digitsToNat y2).natAbs ≤ 1)) ∧
    (year_similar y1 y2 = 0 ∨ year_similar y1 y2 = 1) := by
  intro y1 y2
  unfold year_similar
  split_ifs with h1 h2
  · refine ⟨⟨fun h => absurd h (by norm_num), ?_⟩, Or.inl rfl⟩
    rintro ⟨hd1, hd2, -⟩
    rcases h1 with h1 | h1 <;> simp_all
  · refine ⟨⟨fun _ => ?_, fun _ => rfl⟩, Or.inr rfl⟩
    push_neg at h1
    exact ⟨Bool.not_eq_false _ ▸ h1.1, Bool.not_eq_false _ ▸ h1.2, h2⟩
  · refine ⟨⟨fun h => absurd h (by norm_num), ?_⟩, Or.inl rfl⟩
    rintro ⟨-, -, habs⟩
    exact absurd habs h2

/-- **C6**.  The containment matcher of `damname_similar` accepts the
word-bounded containment `"City of Springfield"` ⊇ `"Springfield"` and
rejects `"Springfieldville"` ⊇ `"Springfield"` (letter at the boundary). -/
theorem containsAsUnit_spec :
    containsAsUnit "City of Springfield".toList "Springfield".toList = true ∧
      containsAsUnit "Springfieldville".toList "Springfield".toList = false := by decide

/-! ## Claim theorems: the numeral gate of `damname_similar` (C4) -/

/-- The token fallback on the `tuttle creek i` / `tuttle creek 1` pair: only
the `tuttle`/`tuttle` pair is eligible (`creek` is stoplisted, `i` and `1`
are too short), so it fires exactly for thresholds at most 1. -/
theorem tfOuterV1_tuttle (t : ℚ) :
    tfOuterV1 v1Stop t (tokenizeV1 "tuttle creek 1".toList)
      (tokenizeV1 "tuttle creek i".toList) = some (decide (t ≤ 1)) := by
  have htr : tokenizeV1 "tuttle creek 1".toList =
      ["tuttle".toList, "creek".toList, "1".toList] := by decide
  have htl : tokenizeV1 "tuttle creek i".toList =
      ["tuttle".toList, "creek".toList, "i".toList] := by decide
  rw [htr, htl]
  simp only [tfOuterV1, tfInnerV1]
  rw [if_pos (by decide), if_neg (by decide), if_neg (by decide)]
  rw [show similar "tuttle".toList "tuttle".toList = some 1 from by decide]
  by_cases h : t ≤ 1
  · simp +decide [h]
  · simp +decide [h]

/-- The first name block on the lowercased Roman/Arabic pair: the numeral
gate passes, the whole-string ratio is `13/14`, containment fails, and the
token fallback records a medium match for thresholds at most 1. -/
theorem damBlock1_tuttle (t : ℚ) :
    damBlock1 t "us".toList "tuttle creek i".toList "tuttle creek 1".toList =
      if t ≤ 13 / 14 then some (1, false, some "tuttle creek 1".toList)
      else some (0, decide (t ≤ 1), some "tuttle creek 1".toList) := by
  have hd : processNameWith v1Titles "us".toList "tuttle creek i".toList =
      "tuttle creek i".toList := by decide
  have hg : processNameWith v1Titles "us".toList "tuttle creek 1".toList =
      "tuttle creek 1".toList := by decide
  have hsim : similar "tuttle creek i".toList "tuttle creek 1".toList =
      some (13 / 14) := by decide
  simp +decide only [damBlock1, hd, hg, hsim, tfOuterV1_tuttle, if_true, if_false]

/-- **C4** (amended).  Different Arabic numerals disqualify for every
threshold.  The Roman/Arabic correspondence of the numeral gate compares
lowercase tokens, so on the claim's capitalized input `"Tuttle Creek I"`
(token `I`, not `i`) the gate fails and the result is 0 for every threshold;
on the lowercased pair the gate passes and the result is 1 exactly for
thresholds at most the whole-string ratio `13/14`, a medium `1/2` via the
token fallback for thresholds in `(13/14, 1]`, and 0 beyond. -/
theorem damname_numeral_gate :
    (∀ t : ℚ, damname_similar t "Tuttle Creek 1".toList "".toList "".toList
      "Tuttle Creek 2".toList "us".toList = some 0) ∧
    (∀ t : ℚ, damname_similar t "Tuttle Creek I".toList "".toList "".toList
      "Tuttle Creek 1".toList "us".toList = some 0) ∧
    (∀ t : ℚ, damname_similar t "tuttle creek i".toList "".toList "".toList
      "tuttle creek 1".toList "us".toList =
      if t ≤ 13 / 14 then some 1 else if t ≤ 1 then some (1 / 2) else some 0) := by
  refine ⟨fun _ => rfl, fun _ => rfl, fun t => ?_⟩
  simp only [damname_similar, damBlock1_tuttle]
  by_cases h1 : t ≤ 13 / 14
  · rw [if_pos h1, if_pos h1]
    simp +decide [damBlockN]
  · rw [if_neg h1, if_neg h1]
    by_cases h2 : t ≤ 1
    · simp +decide [damBlockN, h2]
    · simp +decide [damBlockN, h2]

/-- **C4** counterexample to the claim as stated: at threshold `9/10` the
call on the capitalized Roman-numeral input returns 0, not 1 (the gate's
token tables are lowercase). -/
theorem damname_tuttle_capital_ne_one :
    damname_similar (9 / 10) "Tuttle Creek I".toList "".toList "".toList
        "Tuttle Creek 1".toList "us".toList = some 0 ∧
      damname_similar (9 / 10) "Tuttle Creek I".toList "".toList "".toList
        "Tuttle Creek 1".toList "us".toList ≠ some 1 := by decide

/-! ## Support lemmas for the QA-ranking scan -/

theorem scanTiers_cons (np : GeoCand → Option ℚ) (scList : List (List Char))
    (cs : List GeoCand) (tr : QATier) (ts : List QATier) :
    scanTiers np scList cs (tr :: ts) =
      if tierSel cs tr = [] then scanTiers np scList cs ts
      else
        match optMapList (addrRankQ scList) (tierSel cs tr) with
        | none => none
        | some rs =>
          match optMapList np (tierSel cs tr) with
          | none => none
          | some ps =>
            match pyMax ps with
            | none => none
            | some m =>
              if m = 1 then
                match (List.insertionSort keyLE ((tierSel cs tr).zip rs)).find?
                    (fun p => np p.1 == some 1) with
                | some p => some (some p.1, tr.rank)
                | none => none
              else scanTiers np scList cs ts := rfl

theorem optMapList_isSome {α β : Type} {f : α → Option β} :
    ∀ {l : List α}, (∀ a ∈ l, (f a).isSome) → ∃ r, optMapList f l = some r := by
  intro l
  induction l with
  | nil => intro _; exact ⟨[], rfl⟩
  | cons a t ih =>
    intro h
    obtain ⟨b, hb⟩ := Option.isSome_iff_exists.mp (h a (List.mem_cons_self a t))
    obtain ⟨r, hr⟩ := ih fun x hx => h x (List.mem_cons_of_mem a hx)
    exact ⟨b :: r, by simp [optMapList, hb, hr]⟩

theorem optMapList_all_isSome {α β : Type} {f : α → Option β} :
    ∀ {l : List α} {r : List β}, optMapList f l = some r → ∀ a ∈ l, (f a).isSome := by
  intro l
  induction l with
  | nil => intro r _ a ha; simp at ha
  | cons x t ih =>
    intro r h a ha
    unfold optMapList at h
    cases hfx : f x with
    | none => rw [hfx] at h; simp at h
    | some b =>
      rw [hfx] at h
      cases hrest : optMapList f t with
      | none => rw [hrest] at h; simp at h
      | some bs =>
        rcases List.mem_cons.mp ha with rfl | ha
        · simp [hfx]
        · exact ih hrest a ha

theorem optMapList_none_iff {α β : Type} {f : α → Option β} :
    ∀ {l : List α}, optMapList f l = none ↔ ∃ a ∈ l, f a = none := by
  intro l
  induction l with
  | nil => simp [optMapList]
  | cons x t ih =>
    unfold optMapList
    cases hfx : f x with
    | none => simp [hfx]
    | some b =>
      cases hrest : optMapList f t with
      | none =>
        simp only [hrest]
        constructor
        · intro _
          obtain ⟨a, ha, hfa⟩ := ih.mp hrest
          exact ⟨a, List.mem_cons_of_mem x ha, hfa⟩
        · intro _; trivial
      | some bs =>
        simp only [hrest]
        constructor
        · intro h; simp at h
        · rintro ⟨a, ha, hfa⟩
          rcases List.mem_cons.mp ha with rfl | ha
          · rw [hfa] at hfx; simp at hfx
          · have hsome := optMapList_all_isSome hrest a ha
            rw [hfa] at hsome; simp at hsome

theorem optMapList_length {α β : Type} {f : α → Option β} :
    ∀ {l : List α} {r : List β}, optMapList f l = some r → r.length = l.length := by
  intro l
  induction l with
  | nil => intro r h; cases Option.some.inj h; rfl
  | cons x t ih =>
    intro r h
    unfold optMapList at h
    cases hfx : f x with
    | none => rw [hfx] at h; simp at h
    | some b =>
      rw [hfx] at h
      cases hrest : optMapList f t with
      | none => rw [hrest] at h; simp at h
      | some bs =>
        rw [hrest] at h
        cases Option.some.inj h
        simp [ih hrest]

theorem optMapList_zip {α β : Type} {f : α → Option β} :
    ∀ {l : List α} {r : List β}, optMapList f l = some r →
      ∀ p ∈ l.zip r, f p.1 = some p.2 := by
  intro l
  induction l with
  | nil => intro r _ p hp; simp at hp
  | cons x t ih =>
    intro r h p hp
    unfold optMapList at h
    cases hfx : f x with
    | none => rw [hfx] at h; simp at h
    | some b =>
      rw [hfx] at h
      cases hrest : optMapList f t with
      | none => rw [hrest] at h; simp at h
      | some bs =>
        rw [hrest] at h
        cases Option.some.inj h
        rcases List.mem_cons.mp hp with rfl | hp
        · exact hfx
        · exact ih hrest p hp

theorem optMapList_exists_pair {α β : Type} {f : α → Option β} :
    ∀ {l : List α} {r : List β}, optMapList f l = some r →
      ∀ a ∈ l, ∃ v, (a, v) ∈ l.zip r ∧ f a = some v := by
  intro l
  induction l with
  | nil => intro r _ a ha; simp at ha
  | cons x t ih =>
    intro r h a ha
    unfold optMapList at h
    cases hfx : f x with
    | none => rw [hfx] at h; simp at h
    | some b =>
      rw [hfx] at h
      cases hrest : optMapList f t with
      | none => rw [hrest] at h; simp at h
      | some bs =>
        rw [hrest] at h
        cases Option.some.inj h
        rcases List.mem_cons.mp ha with rfl | ha
        · exact ⟨b, List.mem_cons_self _ _, hfx⟩
        · obtain ⟨v, hv, hfv⟩ := ih hrest a ha
          exact ⟨v, List.mem_cons_of_mem _ hv, hfv⟩

theorem optMapList_mem_of {α β : Type} {f : α → Option β} :
    ∀ {l : List α} {r : List β}, optMapList f l = some r →
      ∀ v ∈ r, ∃ a ∈ l, f a = some v := by
  intro l
  induction l with
  | nil =>
    intro r h v hv
    cases Option.some.inj h
    simp at hv
  | cons x t ih =>
    intro r h v hv
    unfold optMapList at h
    cases hfx : f x with
    | none => rw [hfx] at h; simp at h
    | some b =>
      rw [hfx] at h
      cases hrest : optMapList f t with
      | none => rw [hrest] at h; simp at h
      | some bs =>
        rw [hrest] at h
        cases Option.some.inj h
        rcases List.mem_cons.mp hv with rfl | hv
        · exact ⟨x, List.mem_cons_self _ _, hfx⟩
        · obtain ⟨a, ha, hfa⟩ := ih hrest v hv
          exact ⟨a, List.mem_cons_of_mem _ ha, hfa⟩

theorem optMapList_eq_map {α β : Type} [Inhabited β] {f : α → Option β} :
    ∀ {l : List α} {r : List β}, optMapList f l = some r →
      r = l.map fun a => (f a).iget := by
  intro l
  induction l with
  | nil => intro r h; cases Option.some.inj h; rfl
  | cons x t ih =>
    intro r h
    unfold optMapList at h
    cases hfx : f x with
    | none => rw [hfx] at h; simp at h
    | some b =>
      rw [hfx] at h
      cases hrest : optMapList f t with
      | none => rw [hrest] at h; simp at h
      | some bs =>
        rw [hrest] at h
        cases Option.some.inj h
        simp [hfx, ih hrest]

theorem pyMax_perm {l l' : List ℚ} (h : l.Perm l') : pyMax l = pyMax l' := by
  cases hm : pyMax l with
  | none =>
    rw [pyMax_eq_none_iff] at hm
    subst hm
    have hnil : l' = [] := h.symm.eq_nil
    rw [hnil]
    exact (pyMax_eq_none_iff.mpr rfl).symm
  | some m =>
    obtain ⟨hmem, hle⟩ := pyMax_spec.mp hm
    exact (pyMax_spec.mpr ⟨h.mem_iff.mp hmem, fun v hv => hle v (h.mem_iff.mpr hv)⟩).symm

theorem find?_sorted_key_min {l : List (GeoCand × ℚ)} {p : GeoCand × ℚ → Bool}
    {x : GeoCand × ℚ} (hs : List.Sorted keyLE l) (h : l.find? p = some x) :
    x ∈ l ∧ p x = true ∧ ∀ y ∈ l, p y = true → x.2 ≤ y.2 := by
  induction l with
  | nil => simp at h
  | cons a t ih =>
    by_cases hpa : p a
    · rw [List.find?_cons_of_pos _ hpa] at h
      cases Option.some.inj h
      refine ⟨List.mem_cons_self _ _, hpa, ?_⟩
      intro y hy _
      rcases List.mem_cons.mp hy with rfl | hy
      · exact le_refl _
      · exact (List.sorted_cons.mp hs).1 y hy
    · rw [List.find?_cons_of_neg _ hpa] at h
      obtain ⟨hx, hpx, hmin⟩ := ih (List.sorted_cons.mp hs).2 h
      refine ⟨List.mem_cons_of_mem _ hx, hpx, ?_⟩
      intro y hy hpy
      rcases List.mem_cons.mp hy with rfl | hy
      · exact absurd hpy hpa
      · exact hmin y hy hpy

theorem tierSel_mem {cs : List GeoCand} {tr : QATier} {c : GeoCand} :
    c ∈ tierSel cs tr ↔ (c ∈ cs ∧ c.matchPrec = tr.mt ∧ tr.scenOK c.scenario = true) := by
  unfold tierSel
  rw [List.mem_filter]
  simp [Bool.and_eq_true]

theorem v2Block1_fst_le_one (t : ℚ) (iso dn gn : List Char) :
    (v2Block1 t iso dn gn).1 ≤ 1 := by
  unfold v2Block1
  dsimp only
  split_ifs <;> norm_num

theorem v2BlockN_le_one (t : ℚ) (iso nm gnRaw : List Char) (gs : Option (List Char))
    (passIn : ℚ) (hp : passIn ≤ 1) :
    ∀ v, v2BlockN t iso nm gnRaw gs passIn = some v → v ≤ 1 := by
  intro v h
  unfold v2BlockN at h
  by_cases h1 : nm = [] ∨ gnRaw = []
  · rw [if_pos h1] at h
    injection h with h
    rw [← h]; norm_num
  rw [if_neg h1] at h
  by_cases h2 : gnRaw = "not found".toList
  · rw [if_pos h2] at h
    injection h with h
    rw [← h]; norm_num
  rw [if_neg h2] at h
  cases gs with
  | none => simp at h
  | some g =>
    dsimp only at h
    split_ifs at h <;> (injection h with h; rw [← h]) <;> exact hp

theorem damname_similar_v2_le_one (t : ℚ) (dn odn rn gn iso : List Char) :
    ∀ v, damname_similar_v2 t dn odn rn gn iso = some v → v ≤ 1 := by
  intro v h
  unfold damname_similar_v2 at h
  rcases hb : v2Block1 t iso dn gn with ⟨p1, gs⟩
  rw [hb] at h
  dsimp only at h
  have hp1 : p1 ≤ 1 := by
    have := v2Block1_fst_le_one t iso dn gn
    rw [hb] at this
    exact this
  by_cases h1 : p1 = 1
  · rw [if_pos h1] at h
    injection h with h
    rw [← h]; exact hp1
  rw [if_neg h1] at h
  cases hN : v2BlockN t iso odn gn gs p1 with
  | none => rw [hN] at h; simp at h
  | some p2 =>
    rw [hN] at h
    dsimp only at h
    have hp2 : p2 ≤ 1 := v2BlockN_le_one t iso odn gn gs p1 hp1 p2 hN
    by_cases h2 : p2 = 1
    · rw [if_pos h2] at h
      injection h with h
      rw [← h]; exact hp2
    rw [if_neg h2] at h
    exact v2BlockN_le_one t iso rn gn gs p2 hp2 v h

theorem npQA_le_one (t : ℚ) (dn odn rn iso : List Char) :
    ∀ c v, npQA t dn odn rn iso c = some v → v ≤ 1 := by
  intro c v h
  exact damname_similar_v2_le_one t dn odn rn c.geocodedName iso v h

theorem restTiers_pairwise :
    restTiers.Pairwise (fun u v : QATier => u.rank ≤ v.rank) := by decide

theorem restTiers_rank_ge : ∀ tr ∈ restTiers, (3 : ℚ) / 2 ≤ tr.rank := by decide

theorem tier1_rank_le (sp town : List Char) : (tier1 sp town).rank ≤ 3 / 2 := by
  unfold tier1
  split_ifs <;> norm_num

theorem tierListQA_pairwise (sp town : List Char) :
    (tierListQA sp town).Pairwise (fun u v : QATier => u.rank ≤ v.rank) := by
  rw [tierListQA, List.pairwise_cons]
  exact ⟨fun tr htr => le_trans (tier1_rank_le sp town) (restTiers_rank_ge tr htr),
    restTiers_pairwise⟩

theorem scanTiers_select_spec (np : GeoCand → Option ℚ) (scList : List (List Char))
    (cs : List GeoCand) (hnp : ∀ c v, np c = some v → v ≤ 1) :
    ∀ ts : List QATier, ts.Pairwise (fun u v : QATier => u.rank ≤ v.rank) →
      ∀ c r, scanTiers np scList cs ts = some (some c, r) →
        c ∈ cs ∧
          (∃ tr ∈ ts, r = tr.rank ∧ tierSat np tr c ∧
            ∀ c' ∈ cs, tierSat np tr c' →
              ∃ rc rc', addrRankQ scList c = some rc ∧ addrRankQ scList c' = some rc' ∧
                rc ≤ rc') ∧
          ∀ tr' ∈ ts, (∃ c' ∈ cs, tierSat np tr' c') → r ≤ tr'.rank := by
  intro ts
  induction ts with
  | nil =>
    intro _ c r h
    rw [scanTiers] at h
    simp at h
  | cons tr rest ih =>
    intro hpw c r h
    rw [scanTiers_cons] at h
    by_cases hsel : tierSel cs tr = []
    · rw [if_pos hsel] at h
      obtain ⟨hc, ⟨tr0, htr0, hr0, hsat0, hmin0⟩, hglobal⟩ :=
        ih (List.pairwise_cons.mp hpw).2 c r h
      refine ⟨hc, ⟨tr0, List.mem_cons_of_mem _ htr0, hr0, hsat0, hmin0⟩, ?_⟩
      intro tr' htr' hex
      rcases List.mem_cons.mp htr' with rfl | htr'
      · obtain ⟨c', hc', hsat'⟩ := hex
        have : c' ∈ tierSel cs tr' := tierSel_mem.mpr ⟨hc', hsat'.1, hsat'.2.1⟩
        rw [hsel] at this
        simp at this
      · exact hglobal tr' htr' hex
    · rw [if_neg hsel] at h
      cases haddr : optMapList (addrRankQ scList) (tierSel cs tr) with
      | none => rw [haddr] at h; simp at h
      | some rs =>
        rw [haddr] at h
        dsimp only at h
        cases hnps : optMapList np (tierSel cs tr) with
        | none => rw [hnps] at h; simp at h
        | some ps =>
          rw [hnps] at h
          dsimp only at h
          cases hm : pyMax ps with
          | none => rw [hm] at h; simp at h
          | some m =>
            rw [hm] at h
            dsimp only at h
            by_cases hm1 : m = 1
            · rw [if_pos hm1] at h
              cases hfind : (List.insertionSort keyLE ((tierSel cs tr).zip rs)).find?
                  (fun p => np p.1 == some 1) with
              | none => rw [hfind] at h; simp at h
              | some p =>
                rw [hfind] at h
                dsimp only at h
                simp only [Option.some.injEq, Prod.mk.injEq] at h
                obtain ⟨hcp, hrr⟩ := h
                have hsorted : List.Sorted keyLE
                    (List.insertionSort keyLE ((tierSel cs tr).zip rs)) :=
                  List.sorted_insertionSort keyLE _
                obtain ⟨hpmem, hppred, hpmin⟩ := find?_sorted_key_min hsorted hfind
                have hperm := List.perm_insertionSort keyLE ((tierSel cs tr).zip rs)
                have hp_zip : p ∈ (tierSel cs tr).zip rs := hperm.mem_iff.mp hpmem
                have hp_sel : p.1 ∈ tierSel cs tr := (List.of_mem_zip hp_zip).1
                have haddr_p : addrRankQ scList p.1 = some p.2 :=
                  optMapList_zip haddr p hp_zip
                obtain ⟨hp_cs, hp_mt, hp_sc⟩ := tierSel_mem.mp hp_sel
                have hp_np : np p.1 = some 1 := by
                  simpa using hppred
                subst hcp
                refine ⟨hp_cs, ⟨tr, List.mem_cons_self _ _, hrr.symm, ⟨hp_mt, hp_sc, hp_np⟩,
                  ?_⟩, ?_⟩
                · intro c' hc' hsat'
                  have hc'sel : c' ∈ tierSel cs tr :=
                    tierSel_mem.mpr ⟨hc', hsat'.1, hsat'.2.1⟩
                  obtain ⟨v, hv_zip, hv_addr⟩ := optMapList_exists_pair haddr c' hc'sel
                  have hv_sorted : (c', v) ∈
                      List.insertionSort keyLE ((tierSel cs tr).zip rs) :=
                    hperm.mem_iff.mpr hv_zip
                  have hv_pred : (fun p : GeoCand × ℚ => np p.1 == some 1) (c', v) = true := by
                    simpa using hsat'.2.2
                  exact ⟨p.2, v, haddr_p, hv_addr, hpmin (c', v) hv_sorted hv_pred⟩
                · intro tr' htr' _
                  rcases List.mem_cons.mp htr' with rfl | htr'
                  · exact le_of_eq hrr.symm
                  · rw [← hrr]
                    exact (List.pairwise_cons.mp hpw).1 tr' htr'
            · rw [if_neg hm1] at h
              obtain ⟨hc, ⟨tr0, htr0, hr0, hsat0, hmin0⟩, hglobal⟩ :=
                ih (List.pairwise_cons.mp hpw).2 c r h
              have hnosat : ¬ ∃ c' ∈ cs, tierSat np tr c' := by
                rintro ⟨c', hc', hsat'⟩
                have hc'sel : c' ∈ tierSel cs tr :=
                  tierSel_mem.mpr ⟨hc', hsat'.1, hsat'.2.1⟩
                obtain ⟨v, hv_zip, hv_np⟩ := optMapList_exists_pair hnps c' hc'sel
                rw [hsat'.2.2] at hv_np
                injection hv_np with hv_np
                have h1ps : (1 : ℚ) ∈ ps := by
                  have := (List.of_mem_zip hv_zip).2
                  rw [hv_np]
                  exact this
                have h1m : (1 : ℚ) ≤ m := pyMax_ge hm 1 h1ps
                have hm_mem : m ∈ ps := pyMax_mem hm
                obtain ⟨a, _, ha⟩ := optMapList_mem_of hnps m hm_mem
                have hm_le : m ≤ 1 := hnp a m ha
                exact hm1 (le_antisymm hm_le h1m)
              refine ⟨hc, ⟨tr0, List.mem_cons_of_mem _ htr0, hr0, hsat0, hmin0⟩, ?_⟩
              intro tr' htr' hex
              rcases List.mem_cons.mp htr' with rfl | htr'
              · exact absurd hex hnosat
              · exact hglobal tr' htr' hex

theorem scanTiers_no_sat (np : GeoCand → Option ℚ) (scList : List (List Char))
    (cs : List GeoCand) (haddr : ∀ c ∈ cs, (addrRankQ scList c).isSome)
    (hnpt : ∀ c ∈ cs, (np c).isSome) :
    ∀ ts : List QATier, (∀ tr ∈ ts, ∀ c ∈ cs, ¬tierSat np tr c) →
      scanTiers np scList cs ts = some (none, 9) := by
  intro ts
  induction ts with
  | nil => intro _; rfl
  | cons tr rest ih =>
    intro hns
    rw [scanTiers_cons]
    by_cases hsel : tierSel cs tr = []
    · rw [if_pos hsel]
      exact ih fun tr' h' => hns tr' (List.mem_cons_of_mem _ h')
    · rw [if_neg hsel]
      obtain ⟨rs, hrs⟩ := optMapList_isSome fun c hc => haddr c (tierSel_mem.mp hc).1
      rw [hrs]
      dsimp only
      obtain ⟨ps, hps⟩ := optMapList_isSome fun c hc => hnpt c (tierSel_mem.mp hc).1
      rw [hps]
      dsimp only
      have hpsne : ps ≠ [] := by
        intro h0
        have hlen := optMapList_length hps
        rw [h0] at hlen
        exact hsel (List.length_eq_zero.mp hlen.symm)
      obtain ⟨m, hm⟩ := Option.isSome_iff_exists.mp (pyMax_isSome hpsne)
      rw [hm]
      dsimp only
      have hm1 : m ≠ 1 := by
        intro h1
        subst h1
        have hm_mem : (1 : ℚ) ∈ ps := pyMax_mem hm
        obtain ⟨a, ha, hna⟩ := optMapList_mem_of hps 1 hm_mem
        obtain ⟨hacs, hamt, hasc⟩ := tierSel_mem.mp ha
        exact hns tr (List.mem_cons_self _ _) a hacs ⟨hamt, hasc, hna⟩
      rw [if_neg hm1]
      exact ih fun tr' h' => hns tr' (List.mem_cons_of_mem _ h')

theorem scanTiers_rank_perm (np : GeoCand → Option ℚ) (scList : List (List Char))
    {cs cs' : List GeoCand} (hperm : cs.Perm cs') :
    ∀ ts : List QATier,
      (scanTiers np scList cs ts).map Prod.snd =
          (scanTiers np scList cs' ts).map Prod.snd ∧
        (scanTiers np scList cs ts).map (fun pr => pr.1.isSome) =
          (scanTiers np scList cs' ts).map (fun pr => pr.1.isSome) := by
  intro ts
  induction ts with
  | nil => exact ⟨rfl, rfl⟩
  | cons tr rest ih =>
    have hselperm : (tierSel cs tr).Perm (tierSel cs' tr) := hperm.filter _
    rw [scanTiers_cons, scanTiers_cons]
    by_cases hsel : tierSel cs tr = []
    · have hsel' : tierSel cs' tr = [] := by
        rw [hsel] at hselperm
        exact hselperm.symm.eq_nil
      rw [if_pos hsel, if_pos hsel']
      exact ih
    · have hsel' : tierSel cs' tr ≠ [] := by
        intro h0
        rw [h0] at hselperm
        exact hsel hselperm.eq_nil
      rw [if_neg hsel, if_neg hsel']
      cases haddr : optMapList (addrRankQ scList) (tierSel cs tr) with
      | none =>
        have haddr' : optMapList (addrRankQ scList) (tierSel cs' tr) = none := by
          rw [optMapList_none_iff] at haddr ⊢
          obtain ⟨a, ha, hfa⟩ := haddr
          exact ⟨a, hselperm.mem_iff.mp ha, hfa⟩
        rw [haddr']
        exact ⟨rfl, rfl⟩
      | some rs =>
        obtain ⟨rs', haddr'⟩ :
            ∃ r, optMapList (addrRankQ scList) (tierSel cs' tr) = some r := by
          apply optMapList_isSome
          intro a ha
          exact optMapList_all_isSome haddr a (hselperm.mem_iff.mpr ha)
        rw [haddr']
        dsimp only
        cases hnps : optMapList np (tierSel cs tr) with
        | none =>
          have hnps' : optMapList np (tierSel cs' tr) = none := by
            rw [optMapList_none_iff] at hnps ⊢
            obtain ⟨a, ha, hfa⟩ := hnps
            exact ⟨a, hselperm.mem_iff.mp ha, hfa⟩
          rw [hnps']
          exact ⟨rfl, rfl⟩
        | some ps =>
          obtain ⟨ps', hnps'⟩ : ∃ r, optMapList np (tierSel cs' tr) = some r := by
            apply optMapList_isSome
            intro a ha
            exact optMapList_all_isSome hnps a (hselperm.mem_iff.mpr ha)
          rw [hnps']
          dsimp only
          have hpsperm : ps.Perm ps' := by
            rw [optMapList_eq_map hnps, optMapList_eq_map hnps']
            exact hselperm.map _
          have hmax : pyMax ps = pyMax ps' := pyMax_perm hpsperm
          cases hm : pyMax ps with
          | none =>
            have hm' : pyMax ps' = none := hmax.symm.trans hm
            rw [hm']
            exact ⟨rfl, rfl⟩
          | some m =>
            have hm' : pyMax ps' = some m := hmax.symm.trans hm
            rw [hm']
            dsimp only
            by_cases hm1 : m = 1
            · rw [if_pos hm1, if_pos hm1]
              subst hm1
              have hfind_ex : ∃ c0 ∈ tierSel cs tr, np c0 = some 1 := by
                have hm_mem : (1 : ℚ) ∈ ps := pyMax_mem hm
                exact optMapList_mem_of hnps 1 hm_mem
              have hfs : ((List.insertionSort keyLE ((tierSel cs tr).zip rs)).find?
                  (fun p => np p.1 == some 1)).isSome := by
                rw [List.find?_isSome]
                obtain ⟨c0, hc0, hn0⟩ := hfind_ex
                obtain ⟨v, hv_zip, _⟩ := optMapList_exists_pair haddr c0 hc0
                exact ⟨(c0, v), (List.perm_insertionSort keyLE _).mem_iff.mpr hv_zip,
                  by simp [hn0]⟩
              have hfs' : ((List.insertionSort keyLE ((tierSel cs' tr).zip rs')).find?
                  (fun p => np p.1 == some 1)).isSome := by
                rw [List.find?_isSome]
                obtain ⟨c0, hc0, hn0⟩ := hfind_ex
                have hc0' : c0 ∈ tierSel cs' tr := hselperm.mem_iff.mp hc0
                obtain ⟨v, hv_zip, _⟩ := optMapList_exists_pair haddr' c0 hc0'
                exact ⟨(c0, v), (List.perm_insertionSort keyLE _).mem_iff.mpr hv_zip,
                  by simp [hn0]⟩
              obtain ⟨p0, hp0⟩ := Option.isSome_iff_exists.mp hfs
              obtain ⟨q0, hq0⟩ := Option.isSome_iff_exists.mp hfs'
              rw [hp0, hq0]
              exact ⟨rfl, rfl⟩
            · rw [if_neg hm1, if_neg hm1]
              exact ih

/-- **C1.** For every source record and candidate set given to the
quality-ranking scan, at most one candidate is selected (the scan returns a
single optional candidate); when a candidate is selected at rank `r`, it comes
from the candidate set, `r` is the rank of a tier of the record's tier list
whose composite predicate (required match precision, admitted scenario, name
confidence 1) the candidate satisfies, `r` is less than or equal to the rank
of every tier satisfied by some candidate of the set, and within the selected
tier the chosen candidate minimises the address-scenario rank — the scenario
generation index offset by `0.1` exactly when the geocoding query carried no
country restriction, so the country-restricted variant of a scenario is ranked
ahead of the unrestricted variant. -/
theorem QA_scan_rank_minimal (t : ℚ) (dn odn rn iso : List Char)
    (scList : List (List Char)) (sp town : List Char) (cs : List GeoCand)
    (c : GeoCand) (r : ℚ)
    (h : QA_scan t dn odn rn iso scList sp town cs = some (some c, r)) :
    c ∈ cs ∧
      (∃ tr ∈ tierListQA sp town, r = tr.rank ∧ tierSat (npQA t dn odn rn iso) tr c ∧
        ∀ c' ∈ cs, tierSat (npQA t dn odn rn iso) tr c' →
          ∃ rc rc', addrRankQ scList c = some rc ∧ addrRankQ scList c' = some rc' ∧
            rc ≤ rc') ∧
      ∀ tr' ∈ tierListQA sp town, (∃ c' ∈ cs, tierSat (npQA t dn odn rn iso) tr' c') →
        r ≤ tr'.rank :=
  scanTiers_select_spec (npQA t dn odn rn iso) scList cs (npQA_le_one t dn odn rn iso)
    (tierListQA sp town) (tierListQA_pairwise sp town) c r h

theorem QA_scan_rank_minimal_witness :
    QA_scan (9 / 10) "tuttle creek".toList [] [] "us".toList tScList "kansas".toList []
        [tCand1] = some (some tCand1, 11 / 10) ∧
      (tCand1 ∈ [tCand1] ∧
        (∃ tr ∈ tierListQA "kansas".toList [],
          (11 : ℚ) / 10 = tr.rank ∧
            tierSat (npQA (9 / 10) "tuttle creek".toList [] [] "us".toList) tr tCand1 ∧
              ∀ c' ∈ [tCand1],
                tierSat (npQA (9 / 10) "tuttle creek".toList [] [] "us".toList) tr c' →
                  ∃ rc rc', addrRankQ tScList tCand1 = some rc ∧
                    addrRankQ tScList c' = some rc' ∧ rc ≤ rc') ∧
        ∀ tr' ∈ tierListQA "kansas".toList [],
          (∃ c' ∈ [tCand1],
            tierSat (npQA (9 / 10) "tuttle creek".toList [] [] "us".toList) tr' c') →
            (11 : ℚ) / 10 ≤ tr'.rank) :=
  ⟨by decide,
    QA_scan_rank_minimal (9 / 10) "tuttle creek".toList [] [] "us".toList tScList
      "kansas".toList [] [tCand1] tCand1 (11 / 10) (by decide)⟩

/-- **C7.** When no quality tier's composite predicate is satisfied by any
candidate of the record — provided the per-tier arrays themselves evaluate
(every candidate's address occurs in the record's scenario list and the name
scorer returns on every candidate) — the scan selects no candidate and
returns the reserved terminal rank 9: a regular return value marking the
record as failed quality control, not a raised error. -/
theorem QA_scan_rank9 (t : ℚ) (dn odn rn iso : List Char) (scList : List (List Char))
    (sp town : List Char) (cs : List GeoCand)
    (haddr : ∀ c ∈ cs, (addrRankQ scList c).isSome)
    (hnpt : ∀ c ∈ cs, (npQA t dn odn rn iso c).isSome)
    (hns : ∀ tr ∈ tierListQA sp town, ∀ c ∈ cs, ¬tierSat (npQA t dn odn rn iso) tr c) :
    QA_scan t dn odn rn iso scList sp town cs = some (none, 9) :=
  scanTiers_no_sat (npQA t dn odn rn iso) scList cs haddr hnpt (tierListQA sp town) hns

theorem QA_scan_rank9_witness :
    (∀ c ∈ [tCand3], (addrRankQ tScList c).isSome) ∧
      (∀ c ∈ [tCand3],
        (npQA (9 / 10) "tuttle creek".toList [] [] "us".toList c).isSome) ∧
      (∀ tr ∈ tierListQA "kansas".toList [], ∀ c ∈ [tCand3],
        ¬tierSat (npQA (9 / 10) "tuttle creek".toList [] [] "us".toList) tr c) ∧
      QA_scan (9 / 10) "tuttle creek".toList [] [] "us".toList tScList "kansas".toList []
        [tCand3] = some (none, 9) :=
  ⟨by decide, by decide, by decide,
    QA_scan_rank9 (9 / 10) "tuttle creek".toList [] [] "us".toList tScList
      "kansas".toList [] [tCand3] (by decide) (by decide) (by decide)⟩

/-- **C8** (amended). The QA ranking is a pure function of its arguments, so
rerunning it on the same record and the same candidate list returns the same
value; and under a permutation of the candidate list it preserves crash
behaviour, the rank label, and whether some candidate is selected.  The
identity of the selected candidate, however, depends on the order of the
candidate list (ties at equal address rank are broken by list position), so
the scan is not order-independent in the claimed sense. -/
theorem QA_scan_deterministic_rank (t : ℚ) (dn odn rn iso : List Char)
    (scList : List (List Char)) (sp town : List Char) (cs cs' : List GeoCand)
    (hperm : cs.Perm cs') :
    (QA_scan t dn odn rn iso scList sp town cs).map Prod.snd =
        (QA_scan t dn odn rn iso scList sp town cs').map Prod.snd ∧
      (QA_scan t dn odn rn iso scList sp town cs).map (fun pr => pr.1.isSome) =
        (QA_scan t dn odn rn iso scList sp town cs').map (fun pr => pr.1.isSome) :=
  scanTiers_rank_perm (npQA t dn odn rn iso) scList hperm (tierListQA sp town)

theorem QA_scan_deterministic_rank_witness :
    [tCand1, tCand2].Perm [tCand2, tCand1] ∧
      ((QA_scan (9 / 10) "tuttle creek".toList [] [] "us".toList tScList
            "kansas".toList [] [tCand1, tCand2]).map Prod.snd =
          (QA_scan (9 / 10) "tuttle creek".toList [] [] "us".toList tScList
            "kansas".toList [] [tCand2, tCand1]).map Prod.snd ∧
        (QA_scan (9 / 10) "tuttle creek".toList [] [] "us".toList tScList
            "kansas".toList [] [tCand1, tCand2]).map (fun pr => pr.1.isSome) =
          (QA_scan (9 / 10) "tuttle creek".toList [] [] "us".toList tScList
            "kansas".toList [] [tCand2, tCand1]).map (fun pr => pr.1.isSome)) :=
  ⟨by decide,
    QA_scan_deterministic_rank (9 / 10) "tuttle creek".toList [] [] "us".toList tScList
      "kansas".toList [] [tCand1, tCand2] [tCand2, tCand1] (by decide)⟩

/-- Two candidate rows identical in every ranked field and differing only in
spreadsheet row: the scan returns whichever comes first in the candidate
list, so permuting the candidates changes the selected candidate (while rank
and selection status are preserved). -/
theorem QA_scan_order_dependent :
    QA_scan (9 / 10) "tuttle creek".toList [] [] "us".toList tScList "kansas".toList []
        [tCand1, tCand2] ≠
      QA_scan (9 / 10) "tuttle creek".toList [] [] "us".toList tScList "kansas".toList []
        [tCand2, tCand1] := by decide

end GeoDAR
